import Mathlib

set_option maxRecDepth 8192

/-!
# Verification of `scripts/generate_docs.py`

A shallow embedding, in Lean 4, of the static-site generator
`scripts/generate_docs.py` of the kyushi-web repository, together with
theorems settling the specification claims about it.

Texts are modelled as lists of Unicode characters (`Txt`); Python string
operations used by the script (`splitlines`, `strip`, `rstrip`,
`split(sep, maxsplit)`, `startswith`, `str.join`, f-string interpolation)
are reimplemented over `Txt` with Python semantics.  The filesystem is
modelled as an association list from paths (lists of path components) to
file contents; `yaml.safe_load` — an external library the script treats as
a black box guarded by `except Exception` — is a parameter of the
functions that invoke it, of type `Txt → Except Unit Yaml`.
-/

/-- Program text: a Python `str`, as a list of Unicode characters. -/
abbrev Txt := List Char

/-- Shorthand to write `Txt` values as string literals. -/
def tx (s : String) : Txt := s.toList

/-- Test whether the first text starts with the second (Python
`str.startswith`). -/
def begWith : Txt → Txt → Bool
  | _, [] => true
  | [], _ :: _ => false
  | c :: a, d :: p => c = d && begWith a p

/-- Python `\s` / `str.isspace` character class (the whitespace characters
relevant to `str.strip`, `str.rstrip` and the `re` module's `\s` on `str`
patterns). -/
def isPySpace (c : Char) : Bool :=
  c = ' ' || c = '\t' || c = '\n' || c = '\r' || c = '\x0b' || c = '\x0c' ||
  c = '\x1c' || c = '\x1d' || c = '\x1e' || c = '\x1f' || c = '\x85' ||
  c = '\xa0' || c = '\u1680' ||
  ('\u2000' ≤ c && c ≤ '\u200a') ||
  c = '\u2028' || c = '\u2029' || c = '\u202f' || c = '\u205f' || c = '\u3000'

/-- Python `str.rstrip()`: drop trailing whitespace. -/
def pyRstrip (s : Txt) : Txt := (s.reverse.dropWhile isPySpace).reverse

/-- Python `str.strip("\n")`: drop leading and trailing newline characters
(used on the question file content in `parse_filename`). -/
def stripNl (s : Txt) : Txt :=
  ((s.dropWhile (· = '\n')).reverse.dropWhile (· = '\n')).reverse

/-- Python `str.strip()` used as a blank-line test: `line.strip()` is falsy
iff every character of the line is whitespace. -/
def isBlankLine (s : Txt) : Bool := s.all isPySpace

/-- Line-boundary characters of Python `str.splitlines` (of these, only
`\r\n` forms a two-character boundary). -/
def isLineBreak (c : Char) : Bool :=
  c = '\n' || c = '\r' || c = '\x0b' || c = '\x0c' ||
  c = '\x1c' || c = '\x1d' || c = '\x1e' || c = '\x85' ||
  c = '\u2028' || c = '\u2029'

/-- Python `str.splitlines()`: split at line boundaries, not keeping them;
a trailing boundary produces no empty final line. -/
def pySplitlines : Txt → List Txt
  | [] => []
  | s => go s []
where
  go : Txt → Txt → List Txt
    | [], acc => [acc.reverse]
    | '\r' :: '\n' :: rest, acc =>
        acc.reverse :: (match rest with | [] => [] | r => go r [])
    | c :: rest, acc =>
        if isLineBreak c then
          acc.reverse :: (match rest with | [] => [] | r => go r [])
        else
          go rest (c :: acc)

/-- First occurrence split: `splitOnce s sep = some (before, after)` when
`sep` occurs in `s` (scanning left to right), `none` otherwise.
`sep` is assumed non-empty, as at every call site. -/
def splitOnce (sep : Txt) : Txt → Option (Txt × Txt)
  | [] => if sep = [] then some ([], []) else none
  | c :: rest =>
    if begWith (c :: rest) sep then
      some ([], (c :: rest).drop sep.length)
    else
      match splitOnce sep rest with
      | some (a, b) => some (c :: a, b)
      | none => none

/-- Python `str.split(sep, maxsplit)` for a non-empty separator. -/
def pySplitN (sep : Txt) : Nat → Txt → List Txt
  | 0, s => [s]
  | n + 1, s =>
    match splitOnce sep s with
    | none => [s]
    | some (a, b) => a :: pySplitN sep n b

/-- Python `"\n".join(lines)` (`List.intercalate` with a newline). -/
def joinNl (lines : List Txt) : Txt := List.intercalate ['\n'] lines

/-- Does `pat` occur as a contiguous substring of `s`? -/
def containsSub (pat : Txt) : Txt → Bool
  | [] => begWith [] pat
  | c :: rest => begWith (c :: rest) pat || containsSub pat rest

/-- Decimal digit test (regex `\d` on ASCII, which is all the script's
filenames use). -/
def isDigitC (c : Char) : Bool := '0' ≤ c && c ≤ '9'

/-- Lowercase ASCII letter test (regex `[a-z]`). -/
def isLowerC (c : Char) : Bool := 'a' ≤ c && c ≤ 'z'

/-- Value of a decimal digit character. -/
def digitVal (c : Char) : Nat := c.toNat - '0'.toNat

/-- Python `int` applied to a string of decimal digits (every call site in
the script passes a string matched against `\d+`). -/
def digitsVal (s : Txt) : Nat := s.foldl (fun acc c => 10 * acc + digitVal c) 0

/-- One decimal digit as a character (`n < 10` at every use). -/
def digitChar (n : Nat) : Char := Char.ofNat (48 + n)

/-- Fuel-driven helper for `natToTxt`. -/
def natToTxtAux : Nat → Nat → Txt → Txt
  | 0, _, acc => acc
  | fuel + 1, n, acc =>
    if n < 10 then digitChar n :: acc
    else natToTxtAux fuel (n / 10) (digitChar (n % 10) :: acc)

/-- Decimal rendering of a natural number (Python `str(int)`, f-string
interpolation of a non-negative `int`). -/
def natToTxt (n : Nat) : Txt := natToTxtAux (n + 1) n []

/-- Decimal rendering of an integer (Python `str(int)`). -/
def intToTxt (n : Int) : Txt :=
  if n < 0 then '-' :: natToTxt n.natAbs else natToTxt n.natAbs

/-- Lexicographic comparison of texts by code point (Python `str <`). -/
def txtLt : Txt → Txt → Bool
  | [], [] => false
  | [], _ :: _ => true
  | _ :: _, [] => false
  | c :: a, d :: b => c < d || (c = d && txtLt a b)

/-! ## Domain constants of `generate_docs.py` -/

/-- The `SUBJECT_NAMES` mapping from subject codes to labels. -/
def SUBJECT_NAMES : List (Txt × Txt) :=
  [(tx "kenpo", tx "憲法"), (tx "keiho", tx "刑法"), (tx "keisoho", tx "刑事訴訟法"),
   (tx "minsoho", tx "民事訴訟法"), (tx "minpo", tx "民法"), (tx "shoho", tx "商法")]

/-- Python `SUBJECT_NAMES.get(code, code)`: label of a subject code, the
code itself when unknown. -/
def subjLabel (code : Txt) : Txt := (SUBJECT_NAMES.lookup code).getD code

/-- The fixed subject ordering `SUBJECT_ORDER` used by the home page. -/
def SUBJECT_ORDER : List Txt :=
  [tx "憲法", tx "民法", tx "商法", tx "刑法", tx "民事訴訟法", tx "刑事訴訟法"]

/-- Default placeholder memo written when no memo was recovered. -/
def DEFAULT_MEMO : Txt := tx "_ここにメモを書く_"

/-- The memo heading whose first occurrence anchors memo recovery. -/
def MEMO_HDR : Txt := tx "## メモ"

/-- The `Question` record built once per source file per run (the script's
`Question` TypedDict). -/
structure Question where
  subject : Txt
  subject_label : Txt
  year : Nat
  era_code : Txt
  qnum : Nat
  text : Txt
  slug : Txt
  source : Txt
  tags : List Txt
deriving DecidableEq

/-! ## Filename Parser (`parse_filename`)

The script matches `path.name` against the anchored regex
`kyushi_(?P<subject>[a-z]+)_(?P<year>\d{4})_(?P<era>[sh]\d{2})_q(?P<qnum>\d+)\.txt$`
and raises `ValueError` when it fails.  Because the character classes of
adjacent regex pieces are disjoint (`[a-z]`/`_`, `\d`/`_`, `\d`/`.`),
greedy matching with backtracking coincides with maximal-munch, so the
regex is embedded as a deterministic parser.  Python's `$` (without
`re.M`) also matches just before a single final newline, which the parser
reproduces. -/

/-- Consume a literal prefix, or fail. -/
def eatLit (lit s : Txt) : Option Txt :=
  if begWith s lit then some (s.drop lit.length) else none

/-- Consume the maximal non-empty run of characters satisfying `p`
(regex `p+` followed by a character outside `p`). -/
def takeRun1 (p : Char → Bool) (s : Txt) : Option (Txt × Txt) :=
  match s.takeWhile p with
  | [] => none
  | t => some (t, s.dropWhile p)

/-- Consume exactly `n` characters satisfying `p` (regex `p{n}`). -/
def takeExact (n : Nat) (p : Char → Bool) (s : Txt) : Option (Txt × Txt) :=
  let t := s.take n
  if t.length = n && t.all p then some (t, s.drop n) else none

/-- Consume the era-code group `[sh]\d{2}`. -/
def takeEra (s : Txt) : Option (Txt × Txt) :=
  match s with
  | [] => none
  | c :: rest =>
    if c = 's' || c = 'h' then
      match takeExact 2 isDigitC rest with
      | some (d, r) => some (c :: d, r)
      | none => none
    else none

/-- The deterministic slug `{year}_{era_code}_q{qnum}.md`. -/
def mkSlug (year : Nat) (era : Txt) (qnum : Nat) : Txt :=
  natToTxt year ++ ['_'] ++ era ++ tx "_q" ++ natToTxt qnum ++ tx ".md"

/-- The script's `parse_filename`: parse a file name (and the file's text,
read and stripped of leading/trailing newlines) into a `Question`;
`none` models the `ValueError` raised on a mismatch, which aborts the
whole run. -/
def parse_filename (name content : Txt) : Option Question := do
  let r1 ← eatLit (tx "kyushi_") name
  let (subject, r2) ← takeRun1 isLowerC r1
  let r3 ← eatLit ['_'] r2
  let (yearD, r4) ← takeExact 4 isDigitC r3
  let r5 ← eatLit ['_'] r4
  let (eraC, r6) ← takeEra r5
  let r7 ← eatLit (tx "_q") r6
  let (qD, r8) ← takeRun1 isDigitC r7
  let r9 ← eatLit (tx ".txt") r8
  if r9 = [] || r9 = ['\n'] then
    some { subject := subject
           subject_label := subjLabel subject
           year := digitsVal yearD
           era_code := eraC
           qnum := digitsVal qD
           text := stripNl content
           slug := mkSlug (digitsVal yearD) eraC (digitsVal qD)
           source := tx "kyushi-ronbun/" ++ subject ++ ['/'] ++ name
           tags := [] }
  else none

/-- The script's `era_label`: `ERA_NAMES.get(code[0], code[0])` followed by
`int(code[1:])` and the suffix.  Call sites always pass a parsed era code
(`[sh]` plus two digits); the empty-code case, which would raise in
Python, is mapped to the suffix alone. -/
def era_label (code suffix : Txt) : Txt :=
  match code with
  | [] => suffix
  | c :: rest =>
    (if c = 's' then tx "昭和" else if c = 'h' then tx "平成" else [c]) ++
      natToTxt (digitsVal rest) ++ suffix

/-- The script's `format_blockquote`: prefix each non-blank line with
`"> "`, render each blank line as `">"`, join with newlines and
`rstrip()` the result. -/
def format_blockquote (text : Txt) : Txt :=
  pyRstrip (joinNl ((pySplitlines text).map
    (fun line => if isBlankLine line then ['>'] else tx "> " ++ line)))

/-! ## Front-matter Reader (`read_existing_tags_and_memo`)

The reader calls `yaml.safe_load` on the text between the first two `---`
delimiters under a blanket `except Exception` handler.  The library is
external to this repository (and explicitly out of the specification's
scope), so it enters the embedding as a parameter `sl : Txt → Except Unit
Yaml`, where `Yaml` is the value universe `yaml.safe_load` can produce and
`Except.error` models a raised exception.  All claims about the reader are
proved for every such parameter; concrete witnesses instantiate it with
`miniYaml` below. -/

/-- Values produced by `yaml.safe_load` that the script can observe.
Dictionary keys are kept as texts: the script only ever looks up the
string key `"tags"`, which a non-string key can never equal. -/
inductive Yaml where
  | vnull
  | vbool (b : Bool)
  | vint (n : Int)
  | vstr (s : Txt)
  | vlist (l : List Yaml)
  | vdict (l : List (Txt × Yaml))

/-- Two lowercase hex digits (for `repr`'s escapes of unprintables). -/
def hex2 (n : Nat) : Txt :=
  let d := fun m => if m < 10 then digitChar m else Char.ofNat (87 + m)
  [d (n / 16 % 16), d (n % 16)]

/-- Escaping of one character inside a Python `repr` of a string. -/
def reprEscapeChar (quote c : Char) : Txt :=
  if c = '\\' then tx "\\\\"
  else if c = quote then ['\\', quote]
  else if c = '\n' then tx "\\n"
  else if c = '\r' then tx "\\r"
  else if c = '\t' then tx "\\t"
  else if c.toNat < 32 || c.toNat = 127 then tx "\\x" ++ hex2 c.toNat
  else [c]

/-- Python `repr` of a string: single quotes unless the string contains a
single quote and no double quote. -/
def strRepr (s : Txt) : Txt :=
  let quote := if s.contains '\'' && !(s.contains '"') then '"' else '\''
  quote :: (s.map (reprEscapeChar quote)).flatten ++ [quote]

mutual
/-- Python `repr` of a YAML value (used by `str` for values nested in
containers). -/
def pyRepr : Yaml → Txt
  | .vnull => tx "None"
  | .vbool true => tx "True"
  | .vbool false => tx "False"
  | .vint n => intToTxt n
  | .vstr s => strRepr s
  | .vlist l => '[' :: pyReprElems l ++ [']']
  | .vdict l => '{' :: pyReprPairs l ++ ['}']

/-- Comma-separated `repr`s of list elements. -/
def pyReprElems : List Yaml → Txt
  | [] => []
  | [y] => pyRepr y
  | y :: ys => pyRepr y ++ [',', ' '] ++ pyReprElems ys

/-- Comma-separated `repr`s of dictionary items. -/
def pyReprPairs : List (Txt × Yaml) → Txt
  | [] => []
  | [(k, v)] => strRepr k ++ [':', ' '] ++ pyRepr v
  | (k, v) :: ps => strRepr k ++ [':', ' '] ++ pyRepr v ++ [',', ' '] ++ pyReprPairs ps
end

/-- Python `str` of a YAML value: the text itself for a string, `repr`-like
rendering otherwise (the `str(t)` coercion applied to each tag entry). -/
def pyStr : Yaml → Txt
  | .vstr s => s
  | y => pyRepr y

/-- Extraction of the tag list from a loaded metadata value: the `tags`
field must be present and be a sequence (`isinstance(..., list)`), and
each entry is coerced with `str`; anything else yields no tags. -/
def tagsOfYaml : Yaml → List Txt
  | .vdict d =>
    match d.lookup (tx "tags") with
    | some (.vlist l) => l.map pyStr
    | _ => []
  | _ => []

/-- Matching of the regex fragment `\s*\n` with greedy backtracking: skip
the whitespace run, committing to the last newline inside it, and return
the text after that newline; fail when the run has no newline (the `re`
engine then retries the enclosing search at the next position). -/
def wsNlSplit : Txt → Option Txt
  | [] => none
  | c :: cs =>
    if c = '\n' then
      match wsNlSplit cs with
      | some t => some t
      | none => some cs
    else if isPySpace c then wsNlSplit cs
    else none

/-- Attempted match of `## メモ\s*\n(.*)` (with `re.S`) at the start of
`t`: the capture group is everything after the committed newline. -/
def memoCapture (t : Txt) : Option Txt :=
  if begWith t MEMO_HDR then wsNlSplit (t.drop MEMO_HDR.length) else none

/-- `re.search(r"## メモ\s*\n(.*)", content, re.S)`: the capture of the
leftmost position at which the pattern matches. -/
def memoSearch : Txt → Option Txt
  | [] => none
  | c :: rest =>
    match memoCapture (c :: rest) with
    | some cap => some cap
    | none => memoSearch rest

/-- The script's `read_existing_tags_and_memo`.  The argument is the
content of the target file, `none` when the file does not exist.  Tags
come from the `tags` field of the front-matter block between the first two
`---` delimiters, with every failure (no block, unparsable block, missing
or non-sequence field) yielding the empty list; the memo is the
`rstrip`ped capture after the first `## メモ` heading, the default
placeholder when absent or empty.  The function is total: no input makes
it raise. -/
def read_existing_tags_and_memo (sl : Txt → Except Unit Yaml)
    (file : Option Txt) : List Txt × Txt :=
  match file with
  | none => ([], DEFAULT_MEMO)
  | some content =>
    let tags :=
      if begWith content (tx "---") then
        let parts := pySplitN (tx "---") 2 content
        if parts.length ≥ 3 then
          match sl (parts.getD 1 []) with
          | .ok meta => tagsOfYaml meta
          | .error _ => []
        else []
      else []
    let memo :=
      match memoSearch content with
      | some cap =>
        let m := pyRstrip cap
        if m = [] then DEFAULT_MEMO else m
      | none => DEFAULT_MEMO
    (tags, memo)

/-! ## Page Writer (`write_question_page`) -/

/-- A path in the output tree, as a list of components relative to the
docs directory (for example `["kenpo", "1985_s60_q1.md"]`). -/
abbrev Pth := List Txt

/-- The filesystem under the docs directory: an association list from
paths to contents; the most recent write of a path shadows older ones. -/
abbrev FS := List (Pth × Txt)

/-- Content of the file at a path, `none` when absent. -/
def fsGet (σ : FS) (p : Pth) : Option Txt := σ.lookup p

/-- Overwrite (or create) the file at a path. -/
def fsSet (σ : FS) (p : Pth) (v : Txt) : FS := (p, v) :: σ

/-- The generated page title
`{era_label} 旧司法試験 論文式試験問題 {subject_label} 第{qnum}問`. -/
def pageTitle (q : Question) : Txt :=
  era_label q.era_code (tx "年度") ++ tx " 旧司法試験 論文式試験問題 " ++
    q.subject_label ++ tx " 第" ++ natToTxt q.qnum ++ tx "問"

/-- The tag block of the front matter: the explicit empty-tags marker
`tags: []`, or a `tags:` line followed by one `  - tag` line per tag. -/
def tagsLines (tags : List Txt) : List Txt :=
  if tags = [] then [tx "tags: []"]
  else tx "tags:" :: tags.map (fun t => tx "  - " ++ t)

/-- The front-matter lines: `---`, `title:`, the tag block, `---`. -/
def fmLines (title : Txt) (tags : List Txt) : List Txt :=
  [tx "---", tx "title: " ++ title] ++ tagsLines tags ++ [tx "---"]

/-- The full page content written by `write_question_page` for a given
title, blockquote, tag list and memo. -/
def pageContent (title bq : Txt) (tags : List Txt) (memo : Txt) : Txt :=
  joinNl (fmLines title tags ++
    [[], tx "# " ++ title, [], tx "## 問題", [], bq, [], tx "## メモ", [], memo, []])

/-- The script's `write_question_page`: recover tags and memo from the
existing target (making regeneration non-destructive), store them into the
question (the Python code mutates the shared `Question` dict, so the list
accumulated by `main` sees the recovered tags), and overwrite the target.
Returns the updated filesystem and the updated question. -/
def write_question_page (sl : Txt → Except Unit Yaml) (σ : FS) (target : Pth)
    (q : Question) : FS × Question :=
  let title := pageTitle q
  let bq := format_blockquote q.text
  let (tags, memo) := read_existing_tags_and_memo sl (fsGet σ target)
  let q2 := { q with tags := tags }
  (fsSet σ target (pageContent title bq tags memo), q2)

/-! ## Subject Index Writer (`write_subject_index`)

The function is modelled here exactly as defined in the script.  Note that
nothing in the script ever calls it: `main` writes the question pages and
the home page only (see claim C1). -/

/-- Keys of a Python dict in insertion order: the first occurrence of each
value, in order (`defaultdict` grouping keys). -/
def firstOcc (l : List Nat) : List Nat :=
  l.foldl (fun acc y => if y ∈ acc then acc else acc ++ [y]) []

/-- Python `sorted(keys, reverse=True)` on distinct naturals. -/
def sortNatDesc (l : List Nat) : List Nat := l.mergeSort (fun a b => decide (b ≤ a))

/-- Python `sorted(questions, key=lambda item: item["qnum"])` (stable). -/
def sortByQnum (l : List Question) : List Question :=
  l.mergeSort (fun a b => decide (a.qnum ≤ b.qnum))

/-- The markdown content of a per-subject index: one table row per year,
most recent year first, links per row in ascending question number. -/
def write_subject_index_content (subject_code : Txt) (questions : List Question) : Txt :=
  let subject_label := subjLabel subject_code
  let headerLines := [tx "# " ++ subject_label, [], tx "| 年度 | 問題 |", tx "| --- | --- |"]
  let rows := (sortNatDesc (firstOcc (questions.map (·.year)))).map (fun year =>
    let group := questions.filter (fun q => q.year == year)
    let era := match group with
      | [] => era_label [] (tx "年度")
      | g :: _ => era_label g.era_code (tx "年度")
    let links := List.intercalate (tx " / ") ((sortByQnum group).map (fun q =>
      tx "[第" ++ natToTxt q.qnum ++ tx "問](" ++ q.slug ++ tx ")"))
    tx "| " ++ era ++ tx "（" ++ natToTxt year ++ tx "年度） | " ++ links ++ tx " |")
  pyRstrip (joinNl (headerLines ++ rows)) ++ ['\n']

/-- The script's `write_subject_index`: store the subject index at
`{subject_dir}/index.md`. -/
def write_subject_index (σ : FS) (subjectDirName subject_code : Txt)
    (questions : List Question) : FS :=
  fsSet σ [subjectDirName, tx "index.md"]
    (write_subject_index_content subject_code questions)

/-! ## Home Page Writer (`write_home`) -/

/-- The script's `subject_key`: position in `SUBJECT_ORDER` paired with an
empty tiebreaker, or past-the-end position paired with the label itself
for unrecognized labels. -/
def subject_key (label : Txt) : Nat × Txt :=
  match SUBJECT_ORDER.findIdx? (· == label) with
  | some i => (i, [])
  | none => (SUBJECT_ORDER.length, label)

/-- The Python sort key `(subject_key(label), -year, qnum)`, mapped into a
lexicographic linear order (Python compares tuples, and strings by code
point, exactly lexicographically). -/
def homeKey (q : Question) : Lex ((Lex (Nat × Txt)) × Lex (Int × Nat)) :=
  toLex (toLex (subject_key q.subject_label), toLex (-(q.year : Int), q.qnum))

/-- The comparator of the home-table sort (Python `sorted` is a stable
sort by `homeKey`, as is `mergeSort` with this comparator). -/
def homeLe (a b : Question) : Bool := decide (homeKey a ≤ homeKey b)

/-- The row order of the home table: all questions sorted by `homeKey`. -/
def home_sorted_questions (qs : List Question) : List Question :=
  qs.mergeSort homeLe

/-- Python `html.escape` (with the default `quote=True`) of one character. -/
def htmlEscapeChar (c : Char) : Txt :=
  if c = '&' then tx "&amp;"
  else if c = '<' then tx "&lt;"
  else if c = '>' then tx "&gt;"
  else if c = '"' then tx "&quot;"
  else if c = '\'' then tx "&#x27;"
  else [c]

/-- Python `html.escape` with default quoting. -/
def htmlEscape (s : Txt) : Txt := (s.map htmlEscapeChar).flatten

/-- Python `str.lower()`. The script lowercases search keys whose
non-ASCII characters (kanji, kana) are unaffected by case mapping, so the
ASCII case map suffices. -/
def pyLower (s : Txt) : Txt := s.map Char.toLower

/-- Python `str.replace(old, new)` with fuel (each step consumes at least
one character, so `s.length` fuel is enough). -/
def replaceAllF (pat rep : Txt) : Nat → Txt → Txt
  | 0, s => s
  | _ + 1, [] => []
  | f + 1, c :: rest =>
    if pat ≠ [] && begWith (c :: rest) pat then
      rep ++ replaceAllF pat rep f ((c :: rest).drop pat.length)
    else c :: replaceAllF pat rep f rest

/-- Python `str.replace(old, new)` for a non-empty `old`. -/
def replaceAll (pat rep s : Txt) : Txt := replaceAllF pat rep s.length s

/-- The question text flattened to one line (`text.replace("\n", " ")`). -/
def flattenNl (s : Txt) : Txt := s.map (fun c => if c = '\n' then ' ' else c)

/-- The precomputed lower-cased search key of a row. -/
def searchText (q : Question) : Txt :=
  pyLower (List.intercalate [' ']
    [q.subject_label,
     era_label q.era_code (tx "年度"),
     tx "第" ++ natToTxt q.qnum ++ tx "問",
     natToTxt q.year,
     flattenNl q.text,
     List.intercalate [' '] q.tags])

/-- The truncated snippet: first 70 characters plus an ellipsis when
longer. -/
def snippetText (q : Question) : Txt :=
  let s := flattenNl q.text
  if s.length > 70 then s.take 70 ++ ['…'] else s

/-- The rendered tag cell: tag chips, or an em-dash when there are no
tags. -/
def tagsHtml (tags : List Txt) : Txt :=
  if tags = [] then tx "—"
  else List.intercalate [' '] (tags.map (fun t =>
    tx "<button class=\"tag-link\" type=\"button\" data-tag=\"" ++ htmlEscape t ++
    tx "\">" ++ htmlEscape t ++ tx "</button>"))

/-- One `<tr>` of the home table. -/
def homeRow (q : Question) : Txt :=
  tx "    <tr data-search=\"" ++ htmlEscape (searchText q) ++
  tx "\" data-subject=\"" ++ q.subject_label ++
  tx "\" data-year=\"" ++ natToTxt q.year ++
  tx "\" data-era=\"" ++ era_label q.era_code (tx "年度") ++
  tx "\" data-q=\"" ++ natToTxt q.qnum ++ tx "\">" ++
  tx "<td>" ++ q.subject_label ++ tx "</td>" ++
  tx "<td>" ++ era_label q.era_code (tx "年度") ++ tx "（" ++ natToTxt q.year ++ tx "年度）</td>" ++
  tx "<td><a class=\"problem-link\" href=\"./" ++ q.subject ++ ['/'] ++
    replaceAll (tx ".md") [] q.slug ++ tx "/\">第" ++ natToTxt q.qnum ++ tx "問</a></td>" ++
  tx "<td class=\"snippet-cell\" data-snippet=\"" ++ htmlEscape (snippetText q) ++
  tx "\">" ++ htmlEscape (snippetText q) ++ tx "</td>" ++
  tx "<td class=\"tags-cell\" data-tags=\"" ++
    htmlEscape (List.intercalate (tx "|||") q.tags) ++ tx "\">" ++
  tagsHtml q.tags ++ tx "</tr>"

/-- Insertion-order deduplicated subject labels (the Python `set` of
labels; the subsequent sort key is injective on distinct labels, so the
set's iteration order does not matter). -/
def distinctLabels (qs : List Question) : List Txt :=
  qs.foldl (fun acc q => if q.subject_label ∈ acc then acc else acc ++ [q.subject_label]) []

/-- Python `sorted(labels, key=subject_key)` on distinct labels. -/
def sortedSubjects (qs : List Question) : List Txt :=
  (distinctLabels qs).mergeSort (fun a b =>
    decide ((toLex (subject_key a) : Lex (Nat × Txt)) ≤ toLex (subject_key b)))

/-- The `year_labels` dict: for each year, the era label of the first
question carrying it, in first-occurrence order. -/
def yearLabels (qs : List Question) : List (Nat × Txt) :=
  qs.foldl (fun acc q =>
    if (acc.lookup q.year).isSome then acc
    else acc ++ [(q.year, era_label q.era_code (tx "年度"))]) []

/-- The fixed style/script block appended to the home page.  It is a
single string constant of the script, independent of the dataset; no
claim depends on its literal text (its sorting behavior is modelled
separately as the transition system `sortClick`), so it is represented by
an abstract placeholder constant here. -/
def scriptBlock : Txt := tx "<style>/* fixed style and script block */</style>"

/-- The markdown+HTML content of the home page. -/
def write_home_content (all_questions : List Question) : Txt :=
  let subjects := sortedSubjects all_questions
  let ylabels := yearLabels all_questions
  let years := sortNatDesc (ylabels.map (·.1))
  let header :=
    [tx "# 旧司法試験 論文式試験問題",
     [],
     tx "科目・年度・問題番号で絞り込み、列ヘッダでソートできます。キーワードは空白区切りでAND検索です。",
     [],
     tx "<div class=\"filters\">",
     tx "  <label>科目 <select id=\"filter-subject\" autocomplete=\"off\"><option value=\"\" selected>すべて</option>" ++
       (subjects.map (fun s =>
         tx "<option value=\"" ++ s ++ tx "\">" ++ s ++ tx "</option>")).flatten ++
       tx "</select></label>",
     tx "  <label>年度 <select id=\"filter-year\" autocomplete=\"off\"><option value=\"\">すべて</option>" ++
       (years.map (fun y =>
         tx "<option value=\"" ++ natToTxt y ++ tx "\">" ++ ((ylabels.lookup y).getD []) ++
         tx "（" ++ natToTxt y ++ tx "年度）</option>")).flatten ++
       tx "</select></label>",
     tx "  <label>問題 <select id=\"filter-q\" autocomplete=\"off\"><option value=\"\">すべて</option><option value=\"1\">第1問</option><option value=\"2\">第2問</option><option value=\"3\">第3問</option><option value=\"4\">第4問</option></select></label>",
     tx "  <label>検索 <input id=\"filter-text\" autocomplete=\"off\" type=\"search\" placeholder=\"例: 共同正犯 共謀 240条\" aria-label=\"キーワードで絞り込み\" class=\"md-input\"></label>",
     tx "  <button id=\"clear-filters\" type=\"button\" class=\"clear-btn\">条件をクリア</button>",
     tx "</div>",
     tx "<div id=\"results-count\" class=\"results-count\"></div>",
     [],
     tx "<table id=\"questions\">",
     tx "  <thead>",
     tx "    <tr><th>科目</th><th data-sort=\"year\">年度</th><th data-sort=\"q\">問題</th><th>概要</th><th>タグ</th></tr>",
     tx "  </thead>",
     tx "  <tbody>"]
  let rows := (home_sorted_questions all_questions).map homeRow
  let footer := [tx "  </tbody>", tx "</table>", [], scriptBlock, []]
  joinNl (header ++ rows ++ footer)

/-! ## Orchestrator (`main`)

`main` aborts when the dataset directory is missing; the embedding takes
the dataset as given: a list of subject directories, each with its
`glob("kyushi_*.txt")` results in traversal order (name and content per
file).  For each directory it parses every file (a parse failure aborts
the whole run), writes each question's page under
`{subject_dir.name}/{slug}`, and accumulates the questions; afterwards it
writes the home page at `index.md`.  It never invokes
`write_subject_index`. -/

/-- One subject subdirectory of the dataset. -/
structure SubjDir where
  name : Txt
  files : List (Txt × Txt)
deriving DecidableEq

/-- Process the files of one subject directory in order. -/
def processFiles (sl : Txt → Except Unit Yaml) (dirName : Txt) :
    List (Txt × Txt) → FS → List Question → Except Unit (FS × List Question)
  | [], σ, acc => .ok (σ, acc)
  | (fname, fcontent) :: rest, σ, acc =>
    match parse_filename fname fcontent with
    | none => .error ()
    | some q =>
      let (σ2, q2) := write_question_page sl σ [dirName, q.slug] q
      processFiles sl dirName rest σ2 (acc ++ [q2])

/-- Process all subject directories in order. -/
def runDirs (sl : Txt → Except Unit Yaml) :
    List SubjDir → FS → List Question → Except Unit (FS × List Question)
  | [], σ, acc => .ok (σ, acc)
  | d :: ds, σ, acc =>
    match processFiles sl d.name d.files σ acc with
    | .error e => .error e
    | .ok (σ2, acc2) => runDirs sl ds σ2 acc2

/-- The script's `main`: process every subject directory, then write the
home page from the accumulated list.  `Except.error` models the abort on
a malformed filename. -/
def runMain (sl : Txt → Except Unit Yaml) (ds : List SubjDir) (σ0 : FS) :
    Except Unit FS :=
  match runDirs sl ds σ0 [] with
  | .error e => .error e
  | .ok (σ, allQ) => .ok (fsSet σ [tx "index.md"] (write_home_content allQ))

/-- Observation of the final filesystem at one path (keeps theorems about
single files independent of unrelated file contents). -/
def runGet (sl : Txt → Except Unit Yaml) (ds : List SubjDir) (σ0 : FS)
    (p : Pth) : Option (Option Txt) :=
  match runMain sl ds σ0 with
  | .ok σ => some (fsGet σ p)
  | .error _ => none

/-! ## Client-side sorting (home page script)

The embedded script keeps `sortState = { key, dir }`, initialized to
`{ key: 'subject', dir: 'asc' }`; a click on a sortable header with
`data-sort` key `k` sets
`dir = (sortState.key === k && sortState.dir === 'asc') ? 'desc' : 'asc'`
and `key = k`, then reorders the rows.  The sortable headers are the year
and question columns. -/

/-- The `sortState` of the embedded script; `dir = true` is ascending. -/
structure SortState where
  key : Txt
  dir : Bool
deriving DecidableEq

/-- Initial sort state `{ key: 'subject', dir: 'asc' }`. -/
def sortInit : SortState := { key := tx "subject", dir := true }

/-- Effect of one click on the header with sort key `k`. -/
def sortClick (s : SortState) (k : Txt) : SortState :=
  { key := k, dir := !(s.key = k && s.dir) }

/-- State after a sequence of header clicks. -/
def sortRun (ks : List Txt) : SortState := ks.foldl sortClick sortInit

/-! ## A concrete `yaml.safe_load` for witnesses

`miniYaml` implements the fragment of YAML that the generator itself
emits (a top-level mapping of scalar values and block sequences of
scalars, plus the flow sequence `[]`), with YAML 1.1 plain-scalar
resolution as implemented by PyYAML: unquoted `yes`/`true`/`on` are
booleans, digit runs are integers, quoted scalars are strings.  It is
used only to instantiate the `sl` parameter in witnesses and
counterexamples; its fidelity to PyYAML matters (and is intended) only at
the concrete inputs those evaluate it on. -/

/-- PyYAML plain/quoted scalar resolution for the scalars exercised
here. -/
def parseScalar (s : Txt) : Yaml :=
  if s = tx "true" || s = tx "True" || s = tx "TRUE" || s = tx "yes" ||
     s = tx "Yes" || s = tx "YES" || s = tx "on" || s = tx "On" || s = tx "ON" then
    .vbool true
  else if s = tx "false" || s = tx "False" || s = tx "FALSE" || s = tx "no" ||
     s = tx "No" || s = tx "NO" || s = tx "off" || s = tx "Off" || s = tx "OFF" then
    .vbool false
  else if s = tx "null" || s = tx "Null" || s = tx "NULL" || s = tx "~" || s = [] then
    .vnull
  else if s.all isDigitC then .vint (digitsVal s)
  else if 2 ≤ s.length && s.head? = some '"' && s.getLast? = some '"' then
    .vstr (s.drop 1 |>.dropLast)
  else .vstr s

/-- Fuel-driven line interpreter behind `miniYaml`. -/
def miniYamlGo : Nat → List Txt → List (Txt × Yaml) → Except Unit Yaml
  | 0, _, _ => .error ()
  | _ + 1, [], acc => .ok (.vdict acc.reverse)
  | fuel + 1, line :: rest, acc =>
    if line = [] then miniYamlGo fuel rest acc
    else
      match splitOnce (tx ": ") line with
      | some (k, v) =>
        miniYamlGo fuel rest
          ((k, if v = tx "[]" then .vlist [] else parseScalar v) :: acc)
      | none =>
        if line.getLast? = some ':' then
          let items := rest.takeWhile (fun l => begWith l (tx "  - "))
          let rest2 := rest.dropWhile (fun l => begWith l (tx "  - "))
          miniYamlGo fuel rest2
            ((line.dropLast, .vlist (items.map (fun l => parseScalar (l.drop 4)))) :: acc)
        else .error ()

/-- A concrete stand-in for `yaml.safe_load` on generator-shaped
front-matter blocks. -/
def miniYaml (content : Txt) : Except Unit Yaml :=
  let lines := pySplitlines content
  miniYamlGo (lines.length + 1) lines []

/-! ## Decomposition of a written page

`pageContent` splits, as plain text, into the opening delimiter, the
front-matter body, the closing delimiter and the remainder — and,
alternatively, into everything before the memo heading plus the heading
and memo.  The front-matter reader is driven by these seams. -/

/-- The front-matter delimiter `---`. -/
def DASHES : Txt := tx "---"

/-- The text between the two `---` delimiters of a written page: what the
reader hands to `yaml.safe_load` when nothing earlier interferes. -/
def fmBody (title : Txt) (tags : List Txt) : Txt :=
  '\n' :: joinNl ((tx "title: " ++ title) :: tagsLines tags) ++ ['\n']

/-- The part of a written page after the closing `---`. -/
def pagePost (title bq memo : Txt) : Txt :=
  '\n' :: joinNl [[], tx "# " ++ title, [], tx "## 問題", [], bq, [],
    tx "## メモ", [], memo, []]

/-- The part of a written page strictly before the `## メモ` heading. -/
def pageBeforeMemo (title bq : Txt) (tags : List Txt) : Txt :=
  DASHES ++ fmBody title tags ++ DASHES ++
    '\n' :: joinNl [[], tx "# " ++ title, [], tx "## 問題", [], bq, []] ++ ['\n']

/-- Tag recovery from a front-matter body: `yaml.safe_load` under the
blanket exception handler, then the `tags`-field extraction. -/
def loadTags (sl : Txt → Except Unit Yaml) (body : Txt) : List Txt :=
  match sl body with
  | .ok meta => tagsOfYaml meta
  | .error _ => []

/-- No occurrence of `pat` starts strictly inside `a` when `a` is followed
by `rest` (including occurrences straddling the boundary). -/
def noMatchBefore (pat a rest : Txt) : Prop :=
  ∀ i < a.length, begWith ((a ++ rest).drop i) pat = false

/-- No match of the full memo pattern `## メモ\s*\n` starts strictly
inside `a` when `a` is followed by `rest`. -/
def noMemoMatchBefore (a rest : Txt) : Prop :=
  ∀ i < a.length, memoCapture ((a ++ rest).drop i) = none

/-- Shape invariant of every memo produced by the reader: non-empty,
`rstrip`-normal, and no newline inside its leading whitespace run. -/
def memoCanonical (m : Txt) : Prop :=
  m ≠ [] ∧ pyRstrip m = m ∧ (m.takeWhile isPySpace).contains '\n' = false

/-- Conditions under which regenerating a page written with title `title`,
blockquote `bq`, tags `tags` and memo `memo` recovers exactly `tags` and
`memo`: the front-matter body must load back to the same tag list, no
`---` may occur before the closing delimiter, and no memo-pattern match
may occur before the memo heading. -/
def RoundtripOk (sl : Txt → Except Unit Yaml) (title bq : Txt)
    (tags : List Txt) (memo : Txt) : Prop :=
  loadTags sl (fmBody title tags) = tags ∧
  noMatchBefore DASHES (fmBody title tags) (DASHES ++ pagePost title bq memo) ∧
  noMemoMatchBefore (pageBeforeMemo title bq tags) (MEMO_HDR ++ tx "\n\n" ++ memo ++ tx "\n")

/-! ## The run, flattened

For reasoning about whole runs, the nested directory/file loops of `main`
are flattened into a single list of `(directory name, file name, file
content)` entries; `runDirs_eq_processFlat` below proves the flattening
faithful. -/

/-- The files of the dataset in processing order, each tagged with its
directory name. -/
def filePlan (ds : List SubjDir) : List (Txt × Txt × Txt) :=
  ds.flatMap (fun d => d.files.map (fun f => (d.name, f.1, f.2)))

/-- Processing of a flattened plan (same per-file step as
`processFiles`). -/
def processFlat (sl : Txt → Except Unit Yaml) :
    List (Txt × Txt × Txt) → FS → List Question → Except Unit (FS × List Question)
  | [], σ, acc => .ok (σ, acc)
  | (dirName, fname, fcontent) :: rest, σ, acc =>
    match parse_filename fname fcontent with
    | none => .error ()
    | some q =>
      let (σ2, q2) := write_question_page sl σ [dirName, q.slug] q
      processFlat sl rest σ2 (acc ++ [q2])

/-- Every file of the plan parses. -/
def planOk (plan : List (Txt × Txt × Txt)) : Prop :=
  ∀ e ∈ plan, (parse_filename e.2.1 e.2.2).isSome = true

/-- The output target of one plan entry (`{dir}/{slug}`), when it
parses. -/
def entryTarget (e : Txt × Txt × Txt) : Option Pth :=
  (parse_filename e.2.1 e.2.2).map (fun q => [e.1, q.slug])

/-- All output targets of a plan, in order. -/
def planTargets (plan : List (Txt × Txt × Txt)) : List Pth :=
  plan.filterMap entryTarget

/-- The question a plan entry contributes to the accumulated list, with
the tags recovered from the state `σ` at its target. -/
def plannedQ (sl : Txt → Except Unit Yaml) (σ : FS) (dirName : Txt)
    (q : Question) : Question :=
  { q with tags := (read_existing_tags_and_memo sl (fsGet σ [dirName, q.slug])).1 }

/-- The page content a plan entry writes, in terms of the state `σ` at its
target. -/
def plannedContent (sl : Txt → Except Unit Yaml) (σ : FS) (dirName : Txt)
    (q : Question) : Txt :=
  let tm := read_existing_tags_and_memo sl (fsGet σ [dirName, q.slug])
  pageContent (pageTitle q) (format_blockquote q.text) tm.1 tm.2

/-- The questions a whole plan accumulates, each with tags read from the
initial state (meaningful when all targets are distinct). -/
def planQs (sl : Txt → Except Unit Yaml) (σ : FS) (plan : List (Txt × Txt × Txt)) :
    List Question :=
  plan.filterMap (fun e => (parse_filename e.2.1 e.2.2).map (plannedQ sl σ e.1))

/-- Per-entry regeneration condition for idempotence: whatever the entry's
question and recovered tags/memo are over state `σ0`, rewriting the page
recovers them again. -/
def entryRoundtripOk (sl : Txt → Except Unit Yaml) (σ0 : FS)
    (e : Txt × Txt × Txt) : Prop :=
  match parse_filename e.2.1 e.2.2 with
  | none => True
  | some q =>
    let tm := read_existing_tags_and_memo sl (fsGet σ0 [e.1, q.slug])
    RoundtripOk sl (pageTitle q) (format_blockquote q.text) tm.1 tm.2

/-! ## Claim-side (specification-facing) definitions

These definitions transcribe the wording of the claims, to be compared
with the embedded code. -/

/-- Assembly of a filename from its four groups. -/
def assembleName (sub yd era qd : Txt) : Txt :=
  tx "kyushi_" ++ sub ++ ['_'] ++ yd ++ ['_'] ++ era ++ tx "_q" ++ qd ++ tx ".txt"

/-- The constraints the script's regex places on the four groups:
non-empty lowercase subject, four-digit year, era `s` or `h` plus two
digits, non-empty digit run for the question number. -/
def validParts (sub yd era qd : Txt) : Prop :=
  sub ≠ [] ∧ sub.all isLowerC = true ∧
  yd.length = 4 ∧ yd.all isDigitC = true ∧
  (∃ e d, era = e :: d ∧ (e = 's' ∨ e = 'h') ∧ d.length = 2 ∧ d.all isDigitC = true) ∧
  qd ≠ [] ∧ qd.all isDigitC = true

/-- Name acceptance as the code defines it (a single trailing newline is
also tolerated, an artifact of `$` in an unanchored-at-the-right Python
pattern). -/
def specName (name : Txt) : Prop :=
  ∃ sub yd era qd tail,
    (tail = [] ∨ tail = ['\n']) ∧
    name = assembleName sub yd era qd ++ tail ∧ validParts sub yd era qd

/-- Name acceptance as claim C3 words it: the era marker is **any single
letter** (plus two digits); the other groups as in the code's pattern. -/
def claimName (name : Txt) : Prop :=
  ∃ sub yd e d qd,
    name = assembleName sub yd (e :: d) qd ∧
    sub ≠ [] ∧ sub.all isLowerC = true ∧
    yd.length = 4 ∧ yd.all isDigitC = true ∧
    e.isAlpha = true ∧ d.length = 2 ∧ d.all isDigitC = true ∧
    qd ≠ [] ∧ qd.all isDigitC = true

/-- The blockquote rendering exactly as claim C8 words it: prefix every
non-blank line with `"> "`, render every blank line as a bare `">"`,
preserving the line structure (no trailing strip). -/
def specBlockquote (text : Txt) : Txt :=
  joinNl ((pySplitlines text).map
    (fun line => if isBlankLine line then ['>'] else tx "> " ++ line))

/-- Subject precedence as claim C7 words it: `SUBJECT_ORDER` position for
recognized labels; every unrecognized label after every recognized one,
alphabetically (code-point lexicographically) among themselves. -/
def specSubjBefore (x y : Txt) : Prop :=
  match SUBJECT_ORDER.findIdx? (· == x), SUBJECT_ORDER.findIdx? (· == y) with
  | some i, some j => i < j
  | some _, none => True
  | none, some _ => False
  | none, none => List.Lex (· < ·) x y

/-- Row precedence of the home table as claim C7 words it: subject
precedence first, then year descending, then question number ascending. -/
def specHomeLe (a b : Question) : Prop :=
  specSubjBefore a.subject_label b.subject_label ∨
  (a.subject_label = b.subject_label ∧
    (b.year < a.year ∨ (a.year = b.year ∧ a.qnum ≤ b.qnum)))

/-! ## Concrete data for witnesses and counterexamples -/

/-- A one-subject, one-file dataset whose question text is the spec's own
example `問題文`. -/
def dsExample : List SubjDir :=
  [⟨tx "kenpo", [(tx "kyushi_kenpo_1985_s60_q1.txt", tx "問題文")]⟩]

/-- A dataset whose single question text is exactly the memo heading
`## メモ` — the seed of the idempotence counterexample. -/
def dsMemoText : List SubjDir :=
  [⟨tx "kenpo", [(tx "kyushi_kenpo_1985_s60_q1.txt", MEMO_HDR)]⟩]

/-- Final filesystem of the first run over `dsMemoText` from an empty
output tree (the run succeeds; the fallback branch is dead). -/
def memoRun1 : FS :=
  match runMain miniYaml dsMemoText [] with
  | .ok σ => σ
  | .error _ => []

/-- Final filesystem of the second, identical run. -/
def memoRun2 : FS :=
  match runMain miniYaml dsMemoText memoRun1 with
  | .ok σ => σ
  | .error _ => []

/-- The page path shared by both runs over `dsMemoText`. -/
def memoPagePath : Pth := [tx "kenpo", tx "1985_s60_q1.md"]

/-- A dataset with two distinct filenames that differ only in a leading
zero of the question number. -/
def dsCollide : List SubjDir :=
  [⟨tx "kenpo", [(tx "kyushi_kenpo_1985_s60_q1.txt", tx "甲"),
                 (tx "kyushi_kenpo_1985_s60_q01.txt", tx "乙")]⟩]

/-- The title of the 1985 憲法 first question (shared by both colliding
files). -/
def titleEx : Txt := tx "昭和60年度 旧司法試験 論文式試験問題 憲法 第1問"

/-- A previously generated page for the 1985 憲法 first question that a
user edited: the tag entry `"yes"` (a quoted YAML scalar, read back as
the string `yes`) and the memo `覚書` were added by hand. -/
def editedPage : Txt :=
  joinNl [DASHES, tx "title: " ++ titleEx, tx "tags:", tx "  - \"yes\"", DASHES,
    [], tx "# " ++ titleEx, [], tx "## 問題", [], tx "> 問題文", [],
    tx "## メモ", [], tx "覚書", []]

/-- The parsed question of the example file (before tag recovery). -/
def qExample : Question :=
  { subject := tx "kenpo"
    subject_label := tx "憲法"
    year := 1985
    era_code := tx "s60"
    qnum := 1
    text := tx "問題文"
    slug := tx "1985_s60_q1.md"
    source := tx "kyushi-ronbun/kenpo/kyushi_kenpo_1985_s60_q1.txt"
    tags := [] }

/-- A filesystem holding only the user-edited page at the question's
target path. -/
def editedFS : FS := [([tx "kenpo", tx "1985_s60_q1.md"], editedPage)]

/-- The filesystem after regenerating the question page over the
user-edited state. -/
def regenFS : FS :=
  (write_question_page miniYaml editedFS [tx "kenpo", tx "1985_s60_q1.md"] qExample).1

/-! ## Decidability of the regeneration conditions (used by witnesses) -/

instance (pat a rest : Txt) : Decidable (noMatchBefore pat a rest) := by
  unfold noMatchBefore
  infer_instance

instance (a rest : Txt) : Decidable (noMemoMatchBefore a rest) := by
  unfold noMemoMatchBefore
  infer_instance

instance (m : Txt) : Decidable (memoCanonical m) := by
  unfold memoCanonical
  infer_instance

instance (sl : Txt → Except Unit Yaml) (title bq : Txt) (tags : List Txt)
    (memo : Txt) : Decidable (RoundtripOk sl title bq tags memo) := by
  unfold RoundtripOk
  infer_instance

instance (sl : Txt → Except Unit Yaml) (σ0 : FS) (e : Txt × Txt × Txt) :
    Decidable (entryRoundtripOk sl σ0 e) := by
  unfold entryRoundtripOk
  rcases parse_filename e.2.1 e.2.2 with _ | q
  · infer_instance
  · infer_instance

instance (plan : List (Txt × Txt × Txt)) : Decidable (planOk plan) := by
  unfold planOk
  infer_instance

/-- A previously generated page for the example question that a user
edited only by adding the plain tag `重要` and the memo `覚書`. -/
def benignPage : Txt := pageContent titleEx (tx "> 問題文") [tx "重要"] (tx "覚書")

/-- A filesystem holding only the benign user-edited page. -/
def benignFS : FS := [([tx "kenpo", tx "1985_s60_q1.md"], benignPage)]

/-! # Theorems -/

/-! ## Basic text lemmas -/

theorem begWith_nil (s : Txt) : begWith s [] = true := by
  cases s <;> rfl

theorem begWith_append_self (a b : Txt) : begWith (a ++ b) a = true := by
  induction a with
  | nil => simp [begWith_nil]
  | cons c a ih => simp [begWith, ih]

theorem begWith_eq_true_iff {s p : Txt} : begWith s p = true ↔ ∃ r, s = p ++ r := by
  induction p generalizing s with
  | nil => simp [begWith_nil]
  | cons d p ih =>
    cases s with
    | nil => simp [begWith]
    | cons c s =>
      simp only [begWith, Bool.and_eq_true, decide_eq_true_eq, ih]
      constructor
      · rintro ⟨rfl, r, rfl⟩
        exact ⟨r, rfl⟩
      · rintro ⟨r, hr⟩
        injection hr with h1 h2
        exact ⟨h1, r, h2⟩

theorem eatLit_append (lit r : Txt) : eatLit lit (lit ++ r) = some r := by
  simp [eatLit, begWith_append_self, List.drop_left]

theorem eatLit_eq_some {lit s r : Txt} (h : eatLit lit s = some r) : s = lit ++ r := by
  unfold eatLit at h
  by_cases hb : begWith s lit = true
  · simp only [hb, if_true] at h
    obtain ⟨r', rfl⟩ := begWith_eq_true_iff.mp hb
    rw [List.drop_left] at h
    cases h
    rfl
  · simp [hb] at h

theorem takeWhile_dropWhile_nil (p : Char → Bool) (s : Txt) :
    (s.dropWhile p).takeWhile p = [] := by
  induction s with
  | nil => rfl
  | cons c s ih =>
    by_cases h : p c = true <;>
      simp [List.dropWhile_cons, List.takeWhile_cons, h, ih]

theorem takeWhile_append_of_all {p : Char → Bool} {t r : Txt}
    (ht : t.all p = true) (hr : r.takeWhile p = []) :
    (t ++ r).takeWhile p = t ∧ (t ++ r).dropWhile p = r := by
  induction t with
  | nil =>
    refine ⟨hr, ?_⟩
    have h2 := List.takeWhile_append_dropWhile p r
    rw [hr] at h2
    simpa using h2
  | cons c t ih =>
    simp only [List.all_cons, Bool.and_eq_true] at ht
    have h := ih ht.2
    simp [List.takeWhile_cons, List.dropWhile_cons, ht.1, h.1, h.2]

theorem takeRun1_append {p : Char → Bool} {t r : Txt}
    (hne : t ≠ []) (ht : t.all p = true) (hr : r.takeWhile p = []) :
    takeRun1 p (t ++ r) = some (t, r) := by
  have h := takeWhile_append_of_all ht hr
  unfold takeRun1
  rw [h.1, h.2]
  cases t with
  | nil => exact absurd rfl hne
  | cons c t => rfl

theorem takeRun1_eq_some {p : Char → Bool} {s t r : Txt}
    (h : takeRun1 p s = some (t, r)) :
    s = t ++ r ∧ t ≠ [] ∧ t.all p = true ∧ r.takeWhile p = [] := by
  unfold takeRun1 at h
  cases hw : s.takeWhile p with
  | nil => rw [hw] at h; cases h
  | cons c w =>
    rw [hw] at h
    injection h with h
    injection h with h1 h2
    refine ⟨?_, ?_, ?_, ?_⟩
    · rw [← h1, ← h2, ← hw, List.takeWhile_append_dropWhile]
    · rw [← h1]; simp
    · rw [← h1, ← hw]
      have : ∀ x ∈ s.takeWhile p, p x = true := fun x hx => List.mem_takeWhile_imp hx
      simp [List.all_eq_true, this]
    · rw [← h2]
      exact takeWhile_dropWhile_nil p s

theorem takeExact_append {p : Char → Bool} {t : Txt} (r : Txt) (n : Nat)
    (hlen : t.length = n) (ht : t.all p = true) :
    takeExact n p (t ++ r) = some (t, r) := by
  unfold takeExact
  rw [List.take_left' hlen, List.drop_left' hlen]
  simp [hlen, ht]

theorem takeExact_eq_some {p : Char → Bool} {s t r : Txt} {n : Nat}
    (h : takeExact n p s = some (t, r)) :
    s = t ++ r ∧ t.length = n ∧ t.all p = true := by
  unfold takeExact at h
  simp only at h
  split at h
  case isTrue hc =>
    injection h with h
    injection h with h1 h2
    simp only [Bool.and_eq_true, decide_eq_true_eq] at hc
    rw [← h1, ← h2]
    exact ⟨(List.take_append_drop n s).symm, hc.1, hc.2⟩
  case isFalse => cases h

theorem takeEra_append {e : Char} {d : Txt} (r : Txt)
    (he : e = 's' ∨ e = 'h') (hlen : d.length = 2) (hd : d.all isDigitC = true) :
    takeEra ((e :: d) ++ r) = some (e :: d, r) := by
  unfold takeEra
  have hc : (e = 's' || e = 'h') = true := by rcases he with h | h <;> simp [h]
  simp only [List.cons_append, hc, if_true]
  rw [takeExact_append r 2 hlen hd]

theorem takeEra_eq_some {s t r : Txt} (h : takeEra s = some (t, r)) :
    ∃ e d, s = (e :: d) ++ r ∧ t = e :: d ∧ (e = 's' ∨ e = 'h') ∧
      d.length = 2 ∧ d.all isDigitC = true := by
  cases s with
  | nil => simp [takeEra] at h
  | cons c rest =>
    by_cases hc : (c = 's' || c = 'h') = true
    · simp only [takeEra, hc, if_true] at h
      cases hx : takeExact 2 isDigitC rest with
      | none => rw [hx] at h; cases h
      | some pr =>
        obtain ⟨d, r'⟩ := pr
        rw [hx] at h
        injection h with h
        injection h with h1 h2
        obtain ⟨hs, hl, ha⟩ := takeExact_eq_some hx
        refine ⟨c, d, ?_, by rw [← h1], by simpa using hc, hl, ha⟩
        rw [← h2, hs]
        rfl
    · simp only [takeEra, hc, if_false] at h
      cases h

/-! ## Claim C1 — the orchestrator and the Subject Index Writer -/

/-- C1: the claim states that after all subjects are processed `main`
invokes the Subject Index Writer for every subject.  It does not: running
the orchestrator over a one-subject dataset writes that subject's
question page and the home page, but no `kenpo/index.md` — nothing in
`main` calls `write_subject_index`.  This theorem evaluates the code on
the failing input (`code_bug`: the specification describes the evidently
intended pipeline; the call to the fully implemented
`write_subject_index` is missing from `main`). -/
theorem C1_main_writes_no_subject_index :
    runGet miniYaml dsExample [] [tx "kenpo", tx "index.md"] = some none ∧
    runGet miniYaml dsExample [] [tx "kenpo", tx "1985_s60_q1.md"] =
      some (some (pageContent titleEx (tx "> 問題文") [] DEFAULT_MEMO)) ∧
    runGet miniYaml dsExample [] [tx "index.md"] ≠ some none := by
  refine ⟨by decide, by decide, by decide⟩

/-! ## Claim C8 — the blockquote rendering -/

/-- C8 counterexample: on the question text `問題文 ` (with one trailing
space) the code's blockquote is `> 問題文`, not the claim's
`> 問題文 `: the final `rstrip()` in `format_blockquote` drops trailing
whitespace of the last rendered line, so the claimed rendering does not
hold for every question text. -/
theorem C8_counterexample :
    format_blockquote (tx "問題文 ") ≠ specBlockquote (tx "問題文 ") ∧
    format_blockquote (tx "問題文 ") = tx "> 問題文" ∧
    specBlockquote (tx "問題文 ") = tx "> 問題文 " := by
  refine ⟨by decide, by decide, by decide⟩

/-- C8 (amended): for every question text, the blockquote prefixes every
non-blank line with `"> "` and renders every blank line as a bare `">"`,
preserving the line structure — except that trailing whitespace at the
very end of the rendered block is stripped; in particular the rendering
agrees with the claim whenever the last rendered line has no trailing
whitespace. -/
theorem C8_blockquote (text : Txt) :
    format_blockquote text = pyRstrip (specBlockquote text) ∧
    (pyRstrip (specBlockquote text) = specBlockquote text →
      format_blockquote text = specBlockquote text) := by
  refine ⟨rfl, fun h => h⟩

/-- C8 witness: the spec's own example — the single-line text `問題文`
renders as the line `> 問題文`, by the amended theorem. -/
theorem C8_witness :
    pyRstrip (specBlockquote (tx "問題文")) = specBlockquote (tx "問題文") ∧
    format_blockquote (tx "問題文") = specBlockquote (tx "問題文") ∧
    specBlockquote (tx "問題文") = tx "> 問題文" :=
  ⟨by decide, (C8_blockquote (tx "問題文")).2 (by decide), by decide⟩

/-! ## Claim C9 — toggling of the client-side sort -/

/-- C9: one sort state per table, starting at `subject`/ascending; the
first click of any sortable column (`year` or `q`, neither of which is
the initial key) sorts ascending, any click of a column other than the
current one sorts ascending, and a repeated click of the current column
flips the direction — so repeated clicks of the same header toggle
between ascending and descending. -/
theorem C9_sort_toggle :
    (∀ k, k = tx "year" ∨ k = tx "q" → sortClick sortInit k = ⟨k, true⟩) ∧
    (∀ s k, s.key ≠ k → sortClick s k = ⟨k, true⟩) ∧
    (∀ s k, sortClick (sortClick s k) k = ⟨k, !(sortClick s k).dir⟩) := by
  refine ⟨?_, ?_, ?_⟩
  · rintro k (rfl | rfl) <;> rfl
  · intro s k h
    simp [sortClick, h]
  · intro s k
    simp [sortClick]

/-- C9 witness: concrete click sequences on the year header — the first
click sorts ascending, the second descending, the third ascending
again. -/
theorem C9_witness :
    sortInit.key ≠ tx "year" ∧
    sortRun [tx "year"] = ⟨tx "year", true⟩ ∧
    sortRun [tx "year", tx "year"] = ⟨tx "year", false⟩ ∧
    sortRun [tx "year", tx "year", tx "year"] = ⟨tx "year", true⟩ :=
  ⟨by decide, C9_sort_toggle.2.1 sortInit (tx "year") (by decide), by decide, by decide⟩

/-! ## Claim C10 — slug collision and overwriting -/

/-- C10: the slug is not injective over valid filenames: the two distinct
names `kyushi_kenpo_1985_s60_q1.txt` and `kyushi_kenpo_1985_s60_q01.txt`
both parse and yield the same slug `1985_s60_q1.md`; running the
orchestrator over a dataset holding both files (texts `甲` and `乙`, in
that order) leaves at the shared output path exactly the page of the
later file, which differs from the page the earlier write produced. -/
theorem C10_slug_collision :
    tx "kyushi_kenpo_1985_s60_q1.txt" ≠ tx "kyushi_kenpo_1985_s60_q01.txt" ∧
    (parse_filename (tx "kyushi_kenpo_1985_s60_q1.txt") (tx "甲")).map (·.slug) =
      some (tx "1985_s60_q1.md") ∧
    (parse_filename (tx "kyushi_kenpo_1985_s60_q01.txt") (tx "乙")).map (·.slug) =
      some (tx "1985_s60_q1.md") ∧
    runGet miniYaml dsCollide [] [tx "kenpo", tx "1985_s60_q1.md"] =
      some (some (pageContent titleEx (tx "> 乙") [] DEFAULT_MEMO)) ∧
    pageContent titleEx (tx "> 乙") [] DEFAULT_MEMO ≠
      pageContent titleEx (tx "> 甲") [] DEFAULT_MEMO := by
  refine ⟨by decide, by decide, by decide, by decide, by decide⟩

/-! ## Claim C5 — totality and defaults of the front-matter reader -/

/-- C5: for every `yaml.safe_load` behavior `sl` (the function is total,
so no input makes it raise): an absent file yields the empty tag list and
the default placeholder memo; content with no leading `---`, or without a
closed metadata block, yields no tags; a metadata block on which the
loader raises is swallowed into no tags; a loaded block contributes
`tagsOfYaml`, which is the `str`-coercion of the entries when the `tags`
field is a sequence and the empty list when the field is missing, not a
sequence, or the load is not a mapping. -/
theorem C5_reader_defaults (sl : Txt → Except Unit Yaml) :
    read_existing_tags_and_memo sl none = ([], DEFAULT_MEMO) ∧
    (∀ c, begWith c DASHES = false →
      (read_existing_tags_and_memo sl (some c)).1 = []) ∧
    (∀ c, (pySplitN DASHES 2 c).length < 3 →
      (read_existing_tags_and_memo sl (some c)).1 = []) ∧
    (∀ c, begWith c DASHES = true → 3 ≤ (pySplitN DASHES 2 c).length →
      sl ((pySplitN DASHES 2 c).getD 1 []) = .error () →
      (read_existing_tags_and_memo sl (some c)).1 = []) ∧
    (∀ c y, begWith c DASHES = true → 3 ≤ (pySplitN DASHES 2 c).length →
      sl ((pySplitN DASHES 2 c).getD 1 []) = .ok y →
      (read_existing_tags_and_memo sl (some c)).1 = tagsOfYaml y) ∧
    (∀ d l, d.lookup (tx "tags") = some (.vlist l) →
      tagsOfYaml (.vdict d) = l.map pyStr) ∧
    (∀ d, (∀ l, d.lookup (tx "tags") ≠ some (.vlist l)) →
      tagsOfYaml (.vdict d) = []) ∧
    (∀ y, (∀ d, y ≠ .vdict d) → tagsOfYaml y = []) := by
  refine ⟨rfl, ?_, ?_, ?_, ?_, ?_, ?_, ?_⟩
  · intro c h
    simp only [DASHES] at h
    simp [read_existing_tags_and_memo, h]
  · intro c h
    simp only [DASHES] at h
    simp only [read_existing_tags_and_memo]
    split
    · rw [if_neg (by omega)]
    · rfl
  · intro c hb hlen herr
    simp only [DASHES] at hb hlen herr
    rw [List.getD, List.get?_eq_getElem?] at herr
    simp [read_existing_tags_and_memo, hb, hlen, herr]
  · intro c y hb hlen hok
    simp only [DASHES] at hb hlen hok
    rw [List.getD, List.get?_eq_getElem?] at hok
    simp [read_existing_tags_and_memo, hb, hlen, hok]
  · intro d l h
    simp [tagsOfYaml, h]
  · intro d h
    cases hl : d.lookup (tx "tags") with
    | none => simp [tagsOfYaml, hl]
    | some y =>
      cases y with
      | vlist l => exact absurd hl (h l)
      | vnull => simp [tagsOfYaml, hl]
      | vbool b => simp [tagsOfYaml, hl]
      | vint n => simp [tagsOfYaml, hl]
      | vstr s => simp [tagsOfYaml, hl]
      | vdict dd => simp [tagsOfYaml, hl]
  · intro y h
    cases y with
    | vdict d => exact absurd rfl (h d)
    | vnull => rfl
    | vbool b => rfl
    | vint n => rfl
    | vstr s => rfl
    | vlist l => rfl

/-- C5 witness: the reader's cases exercised at concrete inputs with the
concrete loader `miniYaml` — an absent file, content with no metadata
block, an unclosed block, a block the loader raises on, a loaded block
whose `tags` is the empty sequence, and `str`-coercion of a mixed
sequence. -/
theorem C5_witness :
    read_existing_tags_and_memo miniYaml none = ([], DEFAULT_MEMO) ∧
    (read_existing_tags_and_memo miniYaml (some (tx "x"))).1 = [] ∧
    (read_existing_tags_and_memo miniYaml (some (tx "---\nopen"))).1 = [] ∧
    (read_existing_tags_and_memo miniYaml (some (tx "---\njunk\n---\nrest"))).1 = [] ∧
    (read_existing_tags_and_memo miniYaml
      (some (tx "---\ntitle: t\ntags: []\n---\nrest"))).1 =
      tagsOfYaml (.vdict [(tx "title", .vstr (tx "t")), (tx "tags", .vlist [])]) ∧
    tagsOfYaml (.vdict [(tx "tags", .vlist [.vstr (tx "a"), .vbool true, .vint 3])]) =
      [.vstr (tx "a"), .vbool true, .vint 3].map pyStr :=
  ⟨(C5_reader_defaults miniYaml).1,
   (C5_reader_defaults miniYaml).2.1 (tx "x") (by decide),
   (C5_reader_defaults miniYaml).2.2.1 (tx "---\nopen") (by decide),
   (C5_reader_defaults miniYaml).2.2.2.1 (tx "---\njunk\n---\nrest") (by decide)
     (by decide) (by rfl),
   (C5_reader_defaults miniYaml).2.2.2.2.1 (tx "---\ntitle: t\ntags: []\n---\nrest")
     (.vdict [(tx "title", .vstr (tx "t")), (tx "tags", .vlist [])])
     (by decide) (by decide) (by rfl),
   (C5_reader_defaults miniYaml).2.2.2.2.2.1
     [(tx "tags", .vlist [.vstr (tx "a"), .vbool true, .vint 3])]
     [.vstr (tx "a"), .vbool true, .vint 3] (by rfl)⟩

/-! ## Claims C3/C4 — the filename pattern -/

theorem parse_assembled (sub yd era qd content tail : Txt)
    (h : validParts sub yd era qd) (ht : tail = [] ∨ tail = ['\n']) :
    parse_filename (assembleName sub yd era qd ++ tail) content =
      some { subject := sub
             subject_label := subjLabel sub
             year := digitsVal yd
             era_code := era
             qnum := digitsVal qd
             text := stripNl content
             slug := mkSlug (digitsVal yd) era (digitsVal qd)
             source := tx "kyushi-ronbun/" ++ sub ++ ['/'] ++
               (assembleName sub yd era qd ++ tail)
             tags := [] } := by
  obtain ⟨hsub, hsubl, hyl, hyd, ⟨e, d, herae, he, hdl, hdd⟩, hqn, hqdd⟩ := h
  have hname : assembleName sub yd era qd ++ tail =
      tx "kyushi_" ++ (sub ++ ('_' :: (yd ++ ('_' :: (era ++
        (tx "_q" ++ (qd ++ (tx ".txt" ++ tail)))))))) := by
    simp [assembleName, tx]
  have h1 : ('_' :: (yd ++ ('_' :: (era ++ (tx "_q" ++ (qd ++
      (tx ".txt" ++ tail))))))).takeWhile isLowerC = [] := by
    simp [List.takeWhile_cons, isLowerC]
  have h2 : ('.' :: (tx "txt" ++ tail)).takeWhile isDigitC = [] := by
    simp [List.takeWhile_cons, isDigitC]
  have htail : (tail = [] || tail = ['\n']) = true := by
    rcases ht with h | h <;> simp [h]
  conv_lhs => rw [hname]
  unfold parse_filename
  rw [eatLit_append]
  simp only [Option.bind_eq_bind, Option.some_bind]
  rw [takeRun1_append hsub hsubl h1]
  simp only [Option.some_bind]
  rw [show ('_' :: (yd ++ ('_' :: (era ++ (tx "_q" ++ (qd ++ (tx ".txt" ++ tail))))))) =
    (['_'] ++ (yd ++ ('_' :: (era ++ (tx "_q" ++ (qd ++ (tx ".txt" ++ tail))))))) from rfl]
  rw [eatLit_append]
  simp only [Option.some_bind]
  rw [takeExact_append _ 4 hyl hyd]
  simp only [Option.some_bind]
  rw [show ('_' :: (era ++ (tx "_q" ++ (qd ++ (tx ".txt" ++ tail))))) =
    (['_'] ++ (era ++ (tx "_q" ++ (qd ++ (tx ".txt" ++ tail))))) from rfl]
  rw [eatLit_append]
  simp only [Option.some_bind]
  rw [herae, takeEra_append _ he hdl hdd]
  simp only [Option.some_bind]
  rw [eatLit_append]
  simp only [Option.some_bind]
  rw [takeRun1_append hqn hqdd (show (tx ".txt" ++ tail).takeWhile isDigitC = [] from h2)]
  simp only [Option.some_bind]
  rw [eatLit_append]
  simp only [Option.some_bind, htail, if_true]
  simp [assembleName, List.append_assoc]

theorem parse_some_specName {name content : Txt} {q : Question}
    (h : parse_filename name content = some q) : specName name := by
  unfold parse_filename at h
  simp only [Option.bind_eq_bind] at h
  cases h1 : eatLit (tx "kyushi_") name with
  | none => rw [h1] at h; simp at h
  | some r1 =>
  rw [h1] at h
  simp only [Option.some_bind] at h
  cases h2 : takeRun1 isLowerC r1 with
  | none => rw [h2] at h; simp at h
  | some p2 =>
  obtain ⟨sub, r2⟩ := p2
  rw [h2] at h
  simp only [Option.some_bind] at h
  cases h3 : eatLit ['_'] r2 with
  | none => rw [h3] at h; simp at h
  | some r3 =>
  rw [h3] at h
  simp only [Option.some_bind] at h
  cases h4 : takeExact 4 isDigitC r3 with
  | none => rw [h4] at h; simp at h
  | some p4 =>
  obtain ⟨yd, r4⟩ := p4
  rw [h4] at h
  simp only [Option.some_bind] at h
  cases h5 : eatLit ['_'] r4 with
  | none => rw [h5] at h; simp at h
  | some r5 =>
  rw [h5] at h
  simp only [Option.some_bind] at h
  cases h6 : takeEra r5 with
  | none => rw [h6] at h; simp at h
  | some p6 =>
  obtain ⟨era, r6⟩ := p6
  rw [h6] at h
  simp only [Option.some_bind] at h
  cases h7 : eatLit (tx "_q") r6 with
  | none => rw [h7] at h; simp at h
  | some r7 =>
  rw [h7] at h
  simp only [Option.some_bind] at h
  cases h8 : takeRun1 isDigitC r7 with
  | none => rw [h8] at h; simp at h
  | some p8 =>
  obtain ⟨qd, r8⟩ := p8
  rw [h8] at h
  simp only [Option.some_bind] at h
  cases h9 : eatLit (tx ".txt") r8 with
  | none => rw [h9] at h; simp at h
  | some r9 =>
  rw [h9] at h
  simp only [Option.some_bind] at h
  by_cases hc : (r9 = [] || r9 = ['\n']) = true
  · obtain ⟨hs1, hs2, hs3, _⟩ := takeRun1_eq_some h2
    obtain ⟨ht1, ht2, ht3⟩ := takeExact_eq_some h4
    obtain ⟨e, d, he1, he2, he3, he4, he5⟩ := takeEra_eq_some h6
    obtain ⟨hq1, hq2, hq3, _⟩ := takeRun1_eq_some h8
    refine ⟨sub, yd, era, qd, r9, ?_, ?_, hs2, hs3, ht2, ht3,
      ⟨e, d, he2, he3, he4, he5⟩, hq2, hq3⟩
    · simpa using hc
    · rw [eatLit_eq_some h1, hs1, eatLit_eq_some h3, ht1, eatLit_eq_some h5,
        he1, ← he2, eatLit_eq_some h7, hq1, eatLit_eq_some h9]
      simp [assembleName, List.append_assoc]
  · rw [if_neg hc] at h
    cases h

/-- C3 (amended): `parse_filename` fails — raising the `ValueError` that
aborts the whole run — exactly on the names outside the code's pattern:
`kyushi_<subject:[a-z]+>_<year:4 digits>_<s or h><2 digits>_q<digits>.txt`
(with a single trailing newline also tolerated, an artifact of `$`); the
claim's pattern, which allows any letter as the era marker, is wider than
the code's. -/
theorem C3_parse_error_iff (name content : Txt) :
    parse_filename name content = none ↔ ¬ specName name := by
  constructor
  · intro h hspec
    obtain ⟨sub, yd, era, qd, tail, htail, hname, hvalid⟩ := hspec
    rw [hname, parse_assembled sub yd era qd content tail hvalid htail] at h
    cases h
  · intro h
    cases hp : parse_filename name content with
    | none => rfl
    | some q => exact absurd (parse_some_specName hp) h

/-- C3 counterexample: the name `kyushi_kenpo_2019_r01_q1.txt` matches the
claim's pattern (`r` is a single letter denoting an era — Reiwa — and all
other groups are well-formed), yet `parse_filename` raises: the code
accepts only `s` and `h` as era letters, so the claimed
"error iff the name does not match the pattern" is false. -/
theorem C3_counterexample :
    claimName (tx "kyushi_kenpo_2019_r01_q1.txt") ∧
    parse_filename (tx "kyushi_kenpo_2019_r01_q1.txt") (tx "x") = none := by
  constructor
  · exact ⟨tx "kenpo", tx "2019", 'r', tx "01", tx "1", by decide, by decide,
      by decide, by decide, by decide, by decide, by decide, by decide,
      by decide, by decide⟩
  · decide

/-- C3 witness: both directions of the amended equivalence at concrete
names — the parser accepts the spec's example name (so it does not fail
there), and fails on a name with era letter `r`, which no decomposition
with era letter `s` or `h` matches. -/
theorem C3_witness :
    (parse_filename (tx "kyushi_kenpo_1985_s60_q1.txt") (tx "問題文") = none ↔
      ¬ specName (tx "kyushi_kenpo_1985_s60_q1.txt")) ∧
    (parse_filename (tx "kyushi_kenpo_2019_r01_q1.txt") (tx "x") = none ↔
      ¬ specName (tx "kyushi_kenpo_2019_r01_q1.txt")) :=
  ⟨C3_parse_error_iff (tx "kyushi_kenpo_1985_s60_q1.txt") (tx "問題文"),
   C3_parse_error_iff (tx "kyushi_kenpo_2019_r01_q1.txt") (tx "x")⟩

/-- C4: for every filename assembled from valid groups and any file
content, `parse_filename` recovers exactly the four structured fields
(subject code, year as the integer value of its four digits, era code,
question number as the integer value of its digits), sets the tags to the
empty list, and produces the deterministic slug
`{year}_{era_code}_q{qnum}.md` — which depends only on the filename's
groups, not on the content, and is therefore stable across runs. -/
theorem C4_parse_fields (sub yd era qd content : Txt)
    (h : validParts sub yd era qd) :
    parse_filename (assembleName sub yd era qd) content =
      some { subject := sub
             subject_label := subjLabel sub
             year := digitsVal yd
             era_code := era
             qnum := digitsVal qd
             text := stripNl content
             slug := mkSlug (digitsVal yd) era (digitsVal qd)
             source := tx "kyushi-ronbun/" ++ sub ++ ['/'] ++ assembleName sub yd era qd
             tags := [] } := by
  have := parse_assembled sub yd era qd content [] h (Or.inl rfl)
  simpa using this

/-- C4 witness: the spec's example — `kyushi_kenpo_1985_s60_q1.txt` with
text `問題文` parses to subject `kenpo`, year `1985`, era `s60`, question
`1`, slug `1985_s60_q1.md` and no tags. -/
theorem C4_witness :
    validParts (tx "kenpo") (tx "1985") (tx "s60") (tx "1") ∧
    parse_filename (assembleName (tx "kenpo") (tx "1985") (tx "s60") (tx "1"))
      (tx "問題文") =
      some { subject := tx "kenpo"
             subject_label := subjLabel (tx "kenpo")
             year := digitsVal (tx "1985")
             era_code := tx "s60"
             qnum := digitsVal (tx "1")
             text := stripNl (tx "問題文")
             slug := mkSlug (digitsVal (tx "1985")) (tx "s60") (digitsVal (tx "1"))
             source := tx "kyushi-ronbun/" ++ tx "kenpo" ++ ['/'] ++
               assembleName (tx "kenpo") (tx "1985") (tx "s60") (tx "1")
             tags := [] } :=
  ⟨⟨by decide, by decide, by decide, by decide,
    ⟨'s', tx "60", by decide, Or.inl rfl, by decide, by decide⟩, by decide, by decide⟩,
   C4_parse_fields (tx "kenpo") (tx "1985") (tx "s60") (tx "1") (tx "問題文")
     ⟨by decide, by decide, by decide, by decide,
      ⟨'s', tx "60", by decide, Or.inl rfl, by decide, by decide⟩, by decide, by decide⟩⟩

/-! ## Claim C7 — ordering of the home table -/

theorem findIdxP {l : List Txt} {x : Txt} {i : Nat}
    (h : l.findIdx? (· == x) = some i) : ∃ hi : i < l.length, l[i] = x := by
  rw [List.findIdx?_eq_some_iff_getElem] at h
  obtain ⟨hi, hp, _⟩ := h
  exact ⟨hi, by simpa using hp⟩

theorem subject_key_inj {x y : Txt} (h : subject_key x = subject_key y) : x = y := by
  unfold subject_key at h
  cases hx : SUBJECT_ORDER.findIdx? (· == x) with
  | none =>
    cases hy : SUBJECT_ORDER.findIdx? (· == y) with
    | none =>
      rw [hx, hy] at h
      exact (Prod.mk.injEq _ _ _ _ ▸ h).2
    | some j =>
      rw [hx, hy] at h
      obtain ⟨hj, _⟩ := findIdxP hy
      have := (Prod.mk.injEq _ _ _ _ ▸ h).1
      omega
  | some i =>
    obtain ⟨hi, hgx⟩ := findIdxP hx
    cases hy : SUBJECT_ORDER.findIdx? (· == y) with
    | none =>
      rw [hx, hy] at h
      have := (Prod.mk.injEq _ _ _ _ ▸ h).1
      omega
    | some j =>
      rw [hx, hy] at h
      obtain ⟨hj, hgy⟩ := findIdxP hy
      have hij : i = j := (Prod.mk.injEq _ _ _ _ ▸ h).1
      rw [← hgx, ← hgy]
      congr 1

theorem subject_key_lt_iff {x y : Txt} :
    (toLex (subject_key x) : Lex (Nat × Txt)) < toLex (subject_key y) ↔
      specSubjBefore x y := by
  rw [Prod.Lex.lt_iff]
  unfold subject_key specSubjBefore
  cases hx : SUBJECT_ORDER.findIdx? (· == x) with
  | none =>
    cases hy : SUBJECT_ORDER.findIdx? (· == y) with
    | none =>
      simp only
      constructor
      · rintro (h | ⟨-, h⟩)
        · omega
        · exact h
      · intro h
        exact Or.inr ⟨by simp, h⟩
    | some j =>
      obtain ⟨hj, _⟩ := findIdxP hy
      simp only
      constructor
      · rintro (h | ⟨h, -⟩) <;> omega
      · intro h
        cases h
  | some i =>
    obtain ⟨hi, _⟩ := findIdxP hx
    cases hy : SUBJECT_ORDER.findIdx? (· == y) with
    | none =>
      simp only
      constructor
      · intro _
        trivial
      · intro _
        exact Or.inl hi
    | some j =>
      simp only
      constructor
      · rintro (h | ⟨-, h⟩)
        · exact h
        · exact absurd h (lt_irrefl _)
      · intro h
        exact Or.inl h

theorem homeLe_implies_spec {a b : Question} (h : homeLe a b = true) :
    specHomeLe a b := by
  unfold homeLe at h
  rw [decide_eq_true_eq] at h
  unfold homeKey at h
  rw [Prod.Lex.le_iff] at h
  rcases h with h | ⟨h1, h2⟩
  · exact Or.inl (subject_key_lt_iff.mp h)
  · have hlab : a.subject_label = b.subject_label :=
      subject_key_inj (by simpa using h1)
    rw [Prod.Lex.le_iff] at h2
    refine Or.inr ⟨hlab, ?_⟩
    rcases h2 with h2 | ⟨h2, h3⟩
    · simp only at h2
      left
      omega
    · simp only at h2 h3
      right
      constructor
      · omega
      · exact h3

theorem homeLe_trans (a b c : Question) (hab : homeLe a b = true)
    (hbc : homeLe b c = true) : homeLe a c = true := by
  unfold homeLe at *
  rw [decide_eq_true_eq] at *
  exact le_trans hab hbc

theorem homeLe_total (a b : Question) : (homeLe a b || homeLe b a) = true := by
  unfold homeLe
  rcases le_total (homeKey a) (homeKey b) with h | h <;> simp [h]

/-- C7: for every list of questions, the row order of the home table is a
permutation of the input sorted by: the fixed `SUBJECT_ORDER` precedence
with unrecognized subject labels after all recognized ones and
alphabetical among themselves, then year descending, then question number
ascending. -/
theorem C7_home_order (qs : List Question) :
    (home_sorted_questions qs).Perm qs ∧
    (home_sorted_questions qs).Pairwise specHomeLe := by
  constructor
  · exact List.mergeSort_perm qs homeLe
  · have hs := List.sorted_mergeSort
      (fun a b c => homeLe_trans a b c) homeLe_total qs
    exact List.Pairwise.imp (fun h => homeLe_implies_spec h) hs

/-! ## Joining and splitting lemmas for the written page -/

theorem joinNl_nil : joinNl [] = [] := rfl

theorem joinNl_single (a : Txt) : joinNl [a] = a := by
  simp [joinNl, List.intercalate]

theorem joinNl_cons_cons (a b : Txt) (l : List Txt) :
    joinNl (a :: b :: l) = a ++ '\n' :: joinNl (b :: l) := by
  simp [joinNl, List.intercalate]

theorem joinNl_cons_ne (a : Txt) (l : List Txt) (h : l ≠ []) :
    joinNl (a :: l) = a ++ '\n' :: joinNl l := by
  cases l with
  | nil => exact absurd rfl h
  | cons b t => exact joinNl_cons_cons a b t

theorem joinNl_append (l1 l2 : List Txt) (h1 : l1 ≠ []) (h2 : l2 ≠ []) :
    joinNl (l1 ++ l2) = joinNl l1 ++ '\n' :: joinNl l2 := by
  induction l1 with
  | nil => exact absurd rfl h1
  | cons a t ih =>
    cases t with
    | nil =>
      rw [List.singleton_append, joinNl_cons_ne a l2 h2, joinNl_single]
    | cons b t2 =>
      rw [List.cons_append, joinNl_cons_ne a ((b :: t2) ++ l2) (by simp),
        ih (by simp), joinNl_cons_cons]
      simp

theorem tagsLines_ne_nil (tags : List Txt) : tagsLines tags ≠ [] := by
  unfold tagsLines
  split <;> simp

theorem pageContent_decomp (title bq : Txt) (tags : List Txt) (memo : Txt) :
    pageContent title bq tags memo =
      tx "---" ++ (fmBody title tags ++ (tx "---" ++ pagePost title bq memo)) := by
  unfold pageContent fmLines fmBody pagePost
  rw [show ([tx "---", tx "title: " ++ title] ++ tagsLines tags ++ [tx "---"]) ++
      ([[], tx "# " ++ title, [], tx "## 問題", [], bq, [], tx "## メモ", [],
        memo, []] : List Txt) =
    tx "---" :: (((tx "title: " ++ title) :: tagsLines tags) ++
      (tx "---" :: [[], tx "# " ++ title, [], tx "## 問題", [], bq, [],
        tx "## メモ", [], memo, []])) from by simp]
  rw [joinNl_cons_ne _ _ (by simp)]
  rw [joinNl_append ((tx "title: " ++ title) :: tagsLines tags) _ (by simp) (by simp)]
  rw [joinNl_cons_ne (tx "---") _ (by simp)]
  rw [joinNl_cons_ne (tx "title: " ++ title) (tagsLines tags) (tagsLines_ne_nil tags)]
  simp [List.append_assoc]

theorem pageContent_decomp_memo (title bq : Txt) (tags : List Txt) (memo : Txt) :
    pageContent title bq tags memo =
      pageBeforeMemo title bq tags ++
        (MEMO_HDR ++ ('\n' :: '\n' :: (memo ++ ['\n']))) := by
  rw [pageContent_decomp]
  unfold pageBeforeMemo pagePost MEMO_HDR
  rw [show ([[], tx "# " ++ title, [], tx "## 問題", [], bq, [], tx "## メモ", [],
      memo, []] : List Txt) =
    [[], tx "# " ++ title, [], tx "## 問題", [], bq, []] ++
      [tx "## メモ", [], memo, []] from by simp]
  rw [joinNl_append _ _ (by simp) (by simp)]
  rw [show joinNl [tx "## メモ", [], memo, []] =
      tx "## メモ" ++ '\n' :: '\n' :: (memo ++ ['\n']) from by
    rw [joinNl_cons_cons, joinNl_cons_cons, joinNl_cons_cons, joinNl_single]
    simp]
  simp [DASHES, List.append_assoc]

theorem splitOnce_self (sep r : Txt) (h : sep ≠ []) :
    splitOnce sep (sep ++ r) = some ([], r) := by
  cases sep with
  | nil => exact absurd rfl h
  | cons d t =>
    rw [List.cons_append]
    have hb : begWith (d :: (t ++ r)) (d :: t) = true := by
      rw [← List.cons_append]
      exact begWith_append_self _ _
    simp only [splitOnce, hb, if_true]
    rw [List.length_cons, List.drop_succ_cons, List.drop_left]

theorem splitOnce_firstOcc (sep a r : Txt) (hsep : sep ≠ [])
    (h : ∀ i < a.length, begWith ((a ++ (sep ++ r)).drop i) sep = false) :
    splitOnce sep (a ++ (sep ++ r)) = some (a, r) := by
  induction a with
  | nil => simpa using splitOnce_self sep r hsep
  | cons c t ih =>
    have h0 : begWith (c :: (t ++ (sep ++ r))) sep = false := by
      have := h 0 (by simp)
      simpa using this
    have hrec : splitOnce sep (t ++ (sep ++ r)) = some (t, r) := ih (fun i hi => by
      have := h (i + 1) (by simpa using Nat.succ_lt_succ hi)
      simpa using this)
    rw [List.cons_append]
    simp [splitOnce, h0, hrec]

/-! ## Memo-pattern lemmas -/

theorem takeWhile_append_of_not_all {p : Char → Bool} {l : Txt} (r : Txt)
    (h : l.all p = false) : (l ++ r).takeWhile p = l.takeWhile p := by
  induction l with
  | nil => simp at h
  | cons c t ih =>
    by_cases hc : p c = true
    · simp only [List.all_cons, hc, Bool.true_and] at h
      simp [List.takeWhile_cons, hc, ih h]
    · simp only [Bool.not_eq_true] at hc
      simp [List.takeWhile_cons, hc]

theorem wsNlSplit_none_of {s : Txt}
    (hln : (s.takeWhile isPySpace).contains '\n' = false)
    (hna : s.all isPySpace = false) : wsNlSplit s = none := by
  induction s with
  | nil => simp at hna
  | cons c cs ih =>
    by_cases hsp : isPySpace c = true
    · have hcn : c ≠ '\n' := by
        intro hc
        rw [List.takeWhile_cons, hsp] at hln
        simp [hc] at hln
      rw [List.takeWhile_cons, hsp] at hln
      simp only [if_true, List.contains_cons, Bool.or_eq_false_iff] at hln
      simp only [List.all_cons, hsp, Bool.true_and] at hna
      simp [wsNlSplit, hcn, hsp, ih hln.2 hna]
    · have hcn : c ≠ '\n' := by
        intro hc
        rw [hc] at hsp
        exact hsp (by decide)
      simp only [Bool.not_eq_true] at hsp
      simp [wsNlSplit, hcn, hsp]

theorem all_false_of_rstrip {m : Txt} (hne : m ≠ []) (hr : pyRstrip m = m) :
    m.all isPySpace = false := by
  unfold pyRstrip at hr
  have hrev : m.reverse.dropWhile isPySpace = m.reverse := by
    have := congrArg List.reverse hr
    simpa using this
  cases hm : m.reverse with
  | nil => simp [List.reverse_eq_nil_iff] at hm; exact absurd hm hne
  | cons c t =>
    rw [hm] at hrev
    by_cases hc : isPySpace c = true
    · rw [List.dropWhile_cons, hc, if_pos rfl] at hrev
      have hsub := (List.dropWhile_sublist (l := t) isPySpace).length_le
      have h2 := congrArg List.length hrev
      simp at h2
      omega
    · have hcm : c ∈ m := by
        have : c ∈ m.reverse := by rw [hm]; exact List.mem_cons_self c t
        simpa using this
      cases h2 : m.all isPySpace with
      | false => rfl
      | true =>
        rw [List.all_eq_true] at h2
        exact absurd (h2 c hcm) hc

theorem wsNlSplit_canonical {m : Txt} (h : memoCanonical m) :
    wsNlSplit ('\n' :: '\n' :: (m ++ ['\n'])) = some (m ++ ['\n']) := by
  obtain ⟨hne, hrs, hln⟩ := h
  have hna : m.all isPySpace = false := all_false_of_rstrip hne hrs
  have hnone : wsNlSplit (m ++ ['\n']) = none := by
    apply wsNlSplit_none_of
    · rw [takeWhile_append_of_not_all _ hna]
      exact hln
    · rw [List.all_append]
      simp [hna]
  simp [wsNlSplit, hnone]

theorem memoCapture_at_heading {m : Txt} (h : memoCanonical m) :
    memoCapture (MEMO_HDR ++ ('\n' :: '\n' :: (m ++ ['\n']))) = some (m ++ ['\n']) := by
  unfold memoCapture
  rw [begWith_append_self MEMO_HDR _]
  simp only [if_true]
  rw [List.drop_left]
  exact wsNlSplit_canonical h

theorem memoSearch_of_capture {t cap : Txt} (h : memoCapture t = some cap) :
    memoSearch t = some cap := by
  cases t with
  | nil => simp [memoCapture, begWith, MEMO_HDR, tx] at h
  | cons c rest => simp [memoSearch, h]

theorem memoSearch_append_of_none {a rest : Txt} (h : noMemoMatchBefore a rest) :
    memoSearch (a ++ rest) = memoSearch rest := by
  induction a with
  | nil => simp
  | cons c t ih =>
    have h0 : memoCapture (c :: (t ++ rest)) = none := by
      have := h 0 (by simp)
      simpa using this
    rw [List.cons_append]
    simp only [memoSearch, h0]
    exact ih (fun i hi => by
      have := h (i + 1) (by simpa using Nat.succ_lt_succ hi)
      simpa using this)

theorem pyRstrip_append_nl (m : Txt) : pyRstrip (m ++ ['\n']) = pyRstrip m := by
  unfold pyRstrip
  rw [List.reverse_append]
  simp [List.dropWhile_cons, show isPySpace '\n' = true from by decide]

/-! ## The regeneration round trip -/

theorem read_of_written (sl : Txt → Except Unit Yaml) (title bq : Txt)
    (tags : List Txt) (memo : Txt) (hM : memoCanonical memo)
    (hrt : RoundtripOk sl title bq tags memo) :
    read_existing_tags_and_memo sl (some (pageContent title bq tags memo)) =
      (tags, memo) := by
  obtain ⟨h1, h2, h3⟩ := hrt
  have hbeg : begWith (pageContent title bq tags memo) (tx "---") = true := by
    rw [pageContent_decomp]
    exact begWith_append_self _ _
  have hsplit1 : splitOnce (tx "---") (pageContent title bq tags memo) =
      some ([], fmBody title tags ++ (tx "---" ++ pagePost title bq memo)) := by
    rw [pageContent_decomp]
    exact splitOnce_self _ _ (by decide)
  have hsplit2 : splitOnce (tx "---")
      (fmBody title tags ++ (tx "---" ++ pagePost title bq memo)) =
      some (fmBody title tags, pagePost title bq memo) := by
    apply splitOnce_firstOcc _ _ _ (by decide)
    intro i hi
    exact h2 i hi
  have hparts : pySplitN (tx "---") 2 (pageContent title bq tags memo) =
      [[], fmBody title tags, pagePost title bq memo] := by
    show pySplitN (tx "---") (1 + 1) _ = _
    rw [pySplitN, hsplit1]
    show _ :: pySplitN (tx "---") (0 + 1) _ = _
    rw [pySplitN, hsplit2]
    rfl
  have hmemo : memoSearch (pageContent title bq tags memo) = some (memo ++ ['\n']) := by
    rw [pageContent_decomp_memo]
    have h3x : noMemoMatchBefore (pageBeforeMemo title bq tags)
        (MEMO_HDR ++ ('\n' :: '\n' :: (memo ++ ['\n']))) := h3
    rw [memoSearch_append_of_none h3x]
    exact memoSearch_of_capture (memoCapture_at_heading hM)
  simp only [read_existing_tags_and_memo, hbeg, if_true, hparts, hmemo]
  rw [show ((([] : Txt) :: fmBody title tags :: pagePost title bq memo :: []).getD 1 []) =
    fmBody title tags from rfl]
  rw [show (match sl (fmBody title tags) with
    | .ok meta => tagsOfYaml meta
    | .error _ => ([] : List Txt)) = loadTags sl (fmBody title tags) from rfl]
  rw [h1, pyRstrip_append_nl, hM.2.1]
  simp [hM.1]

theorem wsNlSplit_none_no_nl {s : Txt} (h : wsNlSplit s = none) :
    (s.takeWhile isPySpace).contains '\n' = false := by
  induction s with
  | nil => rfl
  | cons c cs ih =>
    by_cases hc : c = '\n'
    · subst hc
      unfold wsNlSplit at h
      simp only [if_pos rfl] at h
      cases hx : wsNlSplit cs <;> rw [hx] at h <;> cases h
    · by_cases hs : isPySpace c = true
      · unfold wsNlSplit at h
        rw [if_neg hc, if_pos hs] at h
        rw [List.takeWhile_cons, hs, if_pos rfl]
        simp only [List.contains_cons, Bool.or_eq_false_iff]
        exact ⟨by simpa using fun hcc => hc hcc.symm, ih h⟩
      · simp only [Bool.not_eq_true] at hs
        rw [List.takeWhile_cons, hs]
        rfl

theorem wsNlSplit_some_no_nl {s t : Txt} (h : wsNlSplit s = some t) :
    (t.takeWhile isPySpace).contains '\n' = false := by
  induction s generalizing t with
  | nil => cases h
  | cons c cs ih =>
    by_cases hc : c = '\n'
    · subst hc
      unfold wsNlSplit at h
      simp only [if_pos rfl] at h
      cases hx : wsNlSplit cs with
      | some u =>
        rw [hx] at h
        injection h with h
        subst h
        exact ih hx
      | none =>
        rw [hx] at h
        injection h with h
        subst h
        exact wsNlSplit_none_no_nl hx
    · by_cases hs : isPySpace c = true
      · unfold wsNlSplit at h
        rw [if_neg hc, if_pos hs] at h
        exact ih h
      · unfold wsNlSplit at h
        rw [if_neg hc, if_neg (by simpa using hs)] at h
        cases h

theorem memoSearch_some_no_nl {s cap : Txt} (h : memoSearch s = some cap) :
    (cap.takeWhile isPySpace).contains '\n' = false := by
  induction s with
  | nil => cases h
  | cons c rest ih =>
    unfold memoSearch at h
    cases hx : memoCapture (c :: rest) with
    | some u =>
      rw [hx] at h
      injection h with h
      subst h
      unfold memoCapture at hx
      by_cases hb : begWith (c :: rest) MEMO_HDR = true
      · rw [if_pos hb] at hx
        exact wsNlSplit_some_no_nl hx
      · rw [if_neg hb] at hx
        cases hx
    | none =>
      rw [hx] at h
      exact ih h

theorem dropWhile_idem (p : Char → Bool) (l : Txt) :
    (l.dropWhile p).dropWhile p = l.dropWhile p := by
  induction l with
  | nil => rfl
  | cons c t ih =>
    by_cases hc : p c = true
    · simp [List.dropWhile_cons, hc, ih]
    · simp only [Bool.not_eq_true] at hc
      simp [List.dropWhile_cons, hc]

theorem pyRstrip_idem (s : Txt) : pyRstrip (pyRstrip s) = pyRstrip s := by
  unfold pyRstrip
  rw [List.reverse_reverse, dropWhile_idem]

theorem pyRstrip_isPrefix (s : Txt) : pyRstrip s <+: s := by
  have h := List.dropWhile_suffix (l := s.reverse) isPySpace
  obtain ⟨u, hu⟩ := h
  refine ⟨u.reverse, ?_⟩
  unfold pyRstrip
  rw [← List.reverse_append, hu, List.reverse_reverse]

theorem takeWhile_prefix_mono {p : Char → Bool} (t r : Txt) :
    t.takeWhile p <+: (t ++ r).takeWhile p := by
  induction t with
  | nil => simp
  | cons c t ih =>
    by_cases hc : p c = true
    · simp only [List.cons_append, List.takeWhile_cons, hc, if_true]
      obtain ⟨v, hv⟩ := ih
      exact ⟨v, by simp [hv]⟩
    · simp only [Bool.not_eq_true] at hc
      simp [List.cons_append, List.takeWhile_cons, hc]

theorem contains_false_of_prefix {a b : Txt} {x : Char} (h : b <+: a)
    (ha : a.contains x = false) : b.contains x = false := by
  cases hb : b.contains x with
  | false => rfl
  | true =>
    have hmem : x ∈ b := by
      simpa using hb
    have : x ∈ a := h.sublist.subset hmem
    rw [show a.contains x = true from by simpa using this] at ha
    cases ha

theorem read_memo_canonical (sl : Txt → Except Unit Yaml) (file : Option Txt) :
    memoCanonical (read_existing_tags_and_memo sl file).2 := by
  have hdef : memoCanonical DEFAULT_MEMO := ⟨by decide, by decide, by decide⟩
  cases file with
  | none => exact hdef
  | some c =>
    simp only [read_existing_tags_and_memo]
    cases hm : memoSearch c with
    | none => exact hdef
    | some cap =>
      by_cases hz : pyRstrip cap = []
      · simp only [hz, if_pos rfl]
        exact hdef
      · simp only [hz, if_neg hz]
        refine ⟨hz, pyRstrip_idem cap, ?_⟩
        obtain ⟨u, hu⟩ := pyRstrip_isPrefix cap
        have hcap := memoSearch_some_no_nl hm
        rw [← hu] at hcap
        exact contains_false_of_prefix (takeWhile_prefix_mono _ u) hcap

/-! ## Claim C2 — preservation of user tags and memo -/

theorem fsGet_set (σ : FS) (p : Pth) (v : Txt) : fsGet (fsSet σ p v) p = some v := by
  simp [fsGet, fsSet, List.lookup]

theorem fsGet_set_ne (σ : FS) (p q : Pth) (v : Txt) (h : q ≠ p) :
    fsGet (fsSet σ p v) q = fsGet σ q := by
  simp only [fsGet, fsSet, List.lookup]
  rw [show (q == p) = false from beq_eq_false_iff_ne.mpr h]

/-- C2 counterexample: a generator page for the example question edited by
a user to carry the tag `yes` (entered as the quoted YAML scalar `"yes"`)
and the memo `覚書`.  Reading the page recovers tags `["yes"]` and memo
`覚書`; regenerating the page and reading it again recovers `["True"]` —
the rewrite emitted the tag as the plain scalar `yes`, which YAML 1.1
resolves to a boolean, so the tag list is not preserved.  The claim's
"for every possible tag string" is therefore false. -/
theorem C2_counterexample :
    read_existing_tags_and_memo miniYaml
      (fsGet editedFS [tx "kenpo", tx "1985_s60_q1.md"]) =
      ([tx "yes"], tx "覚書") ∧
    read_existing_tags_and_memo miniYaml
      (fsGet regenFS [tx "kenpo", tx "1985_s60_q1.md"]) =
      ([tx "True"], tx "覚書") ∧
    ([tx "True"], tx "覚書") ≠ ([tx "yes"], tx "覚書") := by
  refine ⟨by decide, by decide, by decide⟩

/-- C2 (amended): regenerating a previously generated, user-edited page
preserves the recovered tag list and memo exactly, provided the written
front matter loads back to the same tag list (true in particular when no
tag is re-resolved by YAML to a different value, contains a newline, a
`---`, or the memo heading), no `---` occurs inside the front-matter body,
and no memo-pattern match occurs before the memo heading (true in
particular when neither the question text nor a tag contains `## メモ`).
The recovered memo needs no proviso: every memo the reader returns is
canonical and survives the round trip. -/
theorem C2_regeneration_preserves (sl : Txt → Except Unit Yaml) (σ : FS)
    (target : Pth) (q : Question) (T : List Txt) (M : Txt)
    (hread : read_existing_tags_and_memo sl (fsGet σ target) = (T, M))
    (hrt : RoundtripOk sl (pageTitle q) (format_blockquote q.text) T M) :
    read_existing_tags_and_memo sl
      (fsGet (write_question_page sl σ target q).1 target) = (T, M) ∧
    (write_question_page sl σ target q).2.tags = T := by
  have hM : memoCanonical M := by
    have h := read_memo_canonical sl (fsGet σ target)
    rw [hread] at h
    exact h
  unfold write_question_page
  rw [hread]
  simp only [fsGet_set]
  exact ⟨read_of_written sl (pageTitle q) (format_blockquote q.text) T M hM hrt, trivial⟩

/-- C2 witness: regenerating the example page that a user edited with the
benign tag `重要` and memo `覚書` preserves both exactly. -/
theorem C2_witness :
    read_existing_tags_and_memo miniYaml
      (fsGet benignFS [tx "kenpo", tx "1985_s60_q1.md"]) =
      ([tx "重要"], tx "覚書") ∧
    read_existing_tags_and_memo miniYaml
      (fsGet (write_question_page miniYaml benignFS
        [tx "kenpo", tx "1985_s60_q1.md"] qExample).1
        [tx "kenpo", tx "1985_s60_q1.md"]) = ([tx "重要"], tx "覚書") :=
  ⟨by decide,
   (C2_regeneration_preserves miniYaml benignFS [tx "kenpo", tx "1985_s60_q1.md"]
     qExample [tx "重要"] (tx "覚書") (by decide) (by decide)).1⟩

/-! ## Claim C6 — idempotence of whole runs -/

theorem processFiles_eq_processFlat (sl : Txt → Except Unit Yaml) (dirName : Txt)
    (files : List (Txt × Txt)) (σ : FS) (acc : List Question) :
    processFiles sl dirName files σ acc =
      processFlat sl (files.map (fun f => (dirName, f.1, f.2))) σ acc := by
  induction files generalizing σ acc with
  | nil => rfl
  | cons f rest ih =>
    obtain ⟨fname, fcontent⟩ := f
    simp only [processFiles, processFlat, List.map_cons]
    cases parse_filename fname fcontent with
    | none => rfl
    | some q => exact ih _ _

theorem processFlat_append (sl : Txt → Except Unit Yaml)
    (l1 l2 : List (Txt × Txt × Txt)) (σ : FS) (acc : List Question) :
    processFlat sl (l1 ++ l2) σ acc =
      match processFlat sl l1 σ acc with
      | .error e => .error e
      | .ok (σ2, acc2) => processFlat sl l2 σ2 acc2 := by
  induction l1 generalizing σ acc with
  | nil => rfl
  | cons e rest ih =>
    obtain ⟨dn, fn, fc⟩ := e
    simp only [processFlat, List.cons_append]
    cases parse_filename fn fc with
    | none => rfl
    | some q => exact ih _ _

theorem runDirs_eq_processFlat (sl : Txt → Except Unit Yaml) (ds : List SubjDir)
    (σ : FS) (acc : List Question) :
    runDirs sl ds σ acc = processFlat sl (filePlan ds) σ acc := by
  induction ds generalizing σ acc with
  | nil => rfl
  | cons d rest ih =>
    simp only [runDirs, filePlan, List.flatMap_cons]
    rw [processFlat_append]
    rw [← show processFiles sl d.name d.files σ acc =
      processFlat sl (d.files.map (fun f => (d.name, f.1, f.2))) σ acc from
      processFiles_eq_processFlat sl d.name d.files σ acc]
    cases processFiles sl d.name d.files σ acc with
    | error e => rfl
    | ok pr =>
      obtain ⟨σ2, acc2⟩ := pr
      exact ih _ _

theorem planTargets_cons_some {e : Txt × Txt × Txt} {q : Question}
    (rest : List (Txt × Txt × Txt)) (hp : parse_filename e.2.1 e.2.2 = some q) :
    planTargets (e :: rest) = [e.1, q.slug] :: planTargets rest := by
  simp [planTargets, List.filterMap_cons, entryTarget, hp]

theorem planTargets_cons_none {e : Txt × Txt × Txt}
    (rest : List (Txt × Txt × Txt)) (hp : parse_filename e.2.1 e.2.2 = none) :
    planTargets (e :: rest) = planTargets rest := by
  simp [planTargets, List.filterMap_cons, entryTarget, hp]

theorem planQs_congr (sl : Txt → Except Unit Yaml) (σ1 σ2 : FS)
    (plan : List (Txt × Txt × Txt))
    (h : ∀ p ∈ planTargets plan,
      read_existing_tags_and_memo sl (fsGet σ1 p) =
        read_existing_tags_and_memo sl (fsGet σ2 p)) :
    planQs sl σ1 plan = planQs sl σ2 plan := by
  induction plan with
  | nil => rfl
  | cons e rest ih =>
    simp only [planQs, List.filterMap_cons]
    cases hp : parse_filename e.2.1 e.2.2 with
    | none =>
      simp only [hp, Option.map_none']
      exact ih (fun p hp2 => h p (by
        rw [planTargets_cons_none rest hp]
        exact hp2))
    | some q =>
      have hhead : read_existing_tags_and_memo sl (fsGet σ1 [e.1, q.slug]) =
          read_existing_tags_and_memo sl (fsGet σ2 [e.1, q.slug]) := by
        apply h
        rw [planTargets_cons_some rest hp]
        exact List.mem_cons_self _ _
      have htail := ih (fun p hp2 => h p (by
        rw [planTargets_cons_some rest hp]
        exact List.mem_cons_of_mem _ hp2))
      simp only [hp, Option.map_some']
      show plannedQ sl σ1 e.1 q :: planQs sl σ1 rest =
        plannedQ sl σ2 e.1 q :: planQs sl σ2 rest
      rw [htail]
      unfold plannedQ
      rw [hhead]

theorem plannedContent_congr (sl : Txt → Except Unit Yaml) (σ1 σ2 : FS)
    (dn : Txt) (q : Question)
    (h : read_existing_tags_and_memo sl (fsGet σ1 [dn, q.slug]) =
      read_existing_tags_and_memo sl (fsGet σ2 [dn, q.slug])) :
    plannedContent sl σ1 dn q = plannedContent sl σ2 dn q := by
  unfold plannedContent
  rw [h]

theorem processFlat_char (sl : Txt → Except Unit Yaml) :
    ∀ (plan : List (Txt × Txt × Txt)) (σ : FS) (acc : List Question),
    planOk plan → (planTargets plan).Nodup →
    ∃ σF, processFlat sl plan σ acc = .ok (σF, acc ++ planQs sl σ plan) ∧
      (∀ p, p ∉ planTargets plan → fsGet σF p = fsGet σ p) ∧
      (∀ e ∈ plan, ∀ q, parse_filename e.2.1 e.2.2 = some q →
        fsGet σF [e.1, q.slug] = some (plannedContent sl σ e.1 q)) := by
  intro plan
  induction plan with
  | nil =>
    intro σ acc _ _
    exact ⟨σ, by simp [processFlat, planQs], fun p _ => rfl, by simp⟩
  | cons e rest ih =>
    intro σ acc hok hnd
    obtain ⟨dn, fn, fc⟩ := e
    have h0 : (parse_filename fn fc).isSome = true :=
      hok (dn, fn, fc) (List.mem_cons_self _ _)
    obtain ⟨q0, hq0⟩ : ∃ q, parse_filename fn fc = some q := by
      cases hp : parse_filename fn fc with
      | none => rw [hp] at h0; cases h0
      | some q => exact ⟨q, rfl⟩
    have htcons : planTargets ((dn, fn, fc) :: rest) =
        [dn, q0.slug] :: planTargets rest := planTargets_cons_some rest hq0
    have hnd2 : (planTargets rest).Nodup := by
      rw [htcons] at hnd
      exact hnd.of_cons
    have hnotin : [dn, q0.slug] ∉ planTargets rest := by
      rw [htcons] at hnd
      exact (List.nodup_cons.mp hnd).1
    have hok2 : planOk rest := fun e2 he2 => hok e2 (List.mem_cons_of_mem _ he2)
    -- the write of the head entry
    have hwrite : write_question_page sl σ [dn, q0.slug] q0 =
        (fsSet σ [dn, q0.slug] (plannedContent sl σ dn q0), plannedQ sl σ dn q0) := by
      unfold write_question_page plannedContent plannedQ
      rfl
    -- the state after the head entry reads like σ at every other target
    have hread1 : ∀ p ∈ planTargets rest,
        read_existing_tags_and_memo sl
          (fsGet (fsSet σ [dn, q0.slug] (plannedContent sl σ dn q0)) p) =
        read_existing_tags_and_memo sl (fsGet σ p) := by
      intro p hp
      rw [fsGet_set_ne σ [dn, q0.slug] p (plannedContent sl σ dn q0)
        (fun hpe => hnotin (hpe ▸ hp))]
    obtain ⟨σF, hrun, hother, heach⟩ :=
      ih (fsSet σ [dn, q0.slug] (plannedContent sl σ dn q0))
        (acc ++ [plannedQ sl σ dn q0]) hok2 hnd2
    refine ⟨σF, ?_, ?_, ?_⟩
    · show processFlat sl ((dn, fn, fc) :: rest) σ acc = _
      simp only [processFlat, hq0, hwrite]
      rw [hrun]
      have hqs : planQs sl (fsSet σ [dn, q0.slug] (plannedContent sl σ dn q0)) rest =
          planQs sl σ rest := planQs_congr sl _ σ rest hread1
      rw [hqs]
      have hqcons : planQs sl σ ((dn, fn, fc) :: rest) =
          plannedQ sl σ dn q0 :: planQs sl σ rest := by
        simp [planQs, List.filterMap_cons, hq0]
      rw [hqcons]
      simp
    · intro p hp
      rw [htcons] at hp
      simp only [List.mem_cons, not_or] at hp
      rw [hother p hp.2, fsGet_set_ne _ _ _ _ hp.1]
    · intro e2 he2 q hq
      rcases List.mem_cons.mp he2 with rfl | he2
      · have hqq : q = q0 := by
          rw [hq0] at hq
          injection hq with hinj
          exact hinj.symm
        subst hqq
        rw [hother _ hnotin, fsGet_set]
      · have htarget : [e2.1, q.slug] ∈ planTargets rest := by
          simp only [planTargets, List.mem_filterMap]
          exact ⟨e2, he2, by simp [entryTarget, hq]⟩
        rw [heach e2 he2 q hq]
        congr 1
        exact plannedContent_congr sl _ σ e2.1 q (hread1 _ htarget)

theorem runMain_char (sl : Txt → Except Unit Yaml) (ds : List SubjDir) (σ0 : FS)
    (hok : planOk (filePlan ds)) (hnd : (planTargets (filePlan ds)).Nodup) :
    ∃ σF, runMain sl ds σ0 =
        .ok (fsSet σF [tx "index.md"]
          (write_home_content (planQs sl σ0 (filePlan ds)))) ∧
      (∀ p, p ∉ planTargets (filePlan ds) → fsGet σF p = fsGet σ0 p) ∧
      (∀ e ∈ filePlan ds, ∀ q, parse_filename e.2.1 e.2.2 = some q →
        fsGet σF [e.1, q.slug] = some (plannedContent sl σ0 e.1 q)) := by
  obtain ⟨σF, hrun, hother, heach⟩ := processFlat_char sl (filePlan ds) σ0 [] hok hnd
  refine ⟨σF, ?_, hother, heach⟩
  unfold runMain
  rw [runDirs_eq_processFlat, hrun]
  simp

theorem planTargets_mem_decomp {plan : List (Txt × Txt × Txt)} {p : Pth}
    (hp : p ∈ planTargets plan) :
    ∃ e ∈ plan, ∃ q, parse_filename e.2.1 e.2.2 = some q ∧ p = [e.1, q.slug] := by
  simp only [planTargets, List.mem_filterMap, entryTarget] at hp
  obtain ⟨e, he, hm⟩ := hp
  cases hpp : parse_filename e.2.1 e.2.2 with
  | none => rw [hpp] at hm; cases hm
  | some q =>
    rw [hpp] at hm
    simp only [Option.map_some'] at hm
    injection hm with hm
    exact ⟨e, he, q, hpp, hm.symm⟩

/-- C6 (amended): two successive runs of the generator over the same
dataset produce extensionally identical output filesystems, provided
every file parses, all output targets are pairwise distinct (see C10 for
what a collision does), and every question satisfies the regeneration
round-trip conditions of C2 over the initial state — in particular no
question text contains the memo heading `## メモ` and no recovered tag is
re-resolved by the YAML loader. -/
theorem C6_idempotent (sl : Txt → Except Unit Yaml) (ds : List SubjDir) (σ0 : FS)
    (hok : planOk (filePlan ds)) (hnd : (planTargets (filePlan ds)).Nodup)
    (hrt : ∀ e ∈ filePlan ds, entryRoundtripOk sl σ0 e) :
    ∃ σ1 σ2, runMain sl ds σ0 = .ok σ1 ∧ runMain sl ds σ1 = .ok σ2 ∧
      ∀ p, fsGet σ2 p = fsGet σ1 p := by
  obtain ⟨σA, hrun1, hotherA, heachA⟩ := runMain_char sl ds σ0 hok hnd
  refine ⟨fsSet σA [tx "index.md"]
    (write_home_content (planQs sl σ0 (filePlan ds))), ?_⟩
  set σ1 := fsSet σA [tx "index.md"]
    (write_home_content (planQs sl σ0 (filePlan ds))) with hσ1
  have hkey : ∀ p ∈ planTargets (filePlan ds),
      read_existing_tags_and_memo sl (fsGet σ1 p) =
        read_existing_tags_and_memo sl (fsGet σ0 p) := by
    intro p hp
    obtain ⟨e, he, q, hq, hpe⟩ := planTargets_mem_decomp hp
    subst hpe
    rw [hσ1, fsGet_set_ne σA [tx "index.md"] [e.1, q.slug] _ (by simp)]
    rw [heachA e he q hq]
    have hroundtrip := hrt e he
    unfold entryRoundtripOk at hroundtrip
    rw [hq] at hroundtrip
    have hrt2 : RoundtripOk sl (pageTitle q) (format_blockquote q.text)
        (read_existing_tags_and_memo sl (fsGet σ0 [e.1, q.slug])).1
        (read_existing_tags_and_memo sl (fsGet σ0 [e.1, q.slug])).2 := hroundtrip
    have hM : memoCanonical
        (read_existing_tags_and_memo sl (fsGet σ0 [e.1, q.slug])).2 :=
      read_memo_canonical sl _
    have hres := read_of_written sl (pageTitle q) (format_blockquote q.text)
      (read_existing_tags_and_memo sl (fsGet σ0 [e.1, q.slug])).1
      (read_existing_tags_and_memo sl (fsGet σ0 [e.1, q.slug])).2 hM hrt2
    calc read_existing_tags_and_memo sl (some (plannedContent sl σ0 e.1 q))
        = ((read_existing_tags_and_memo sl (fsGet σ0 [e.1, q.slug])).1,
           (read_existing_tags_and_memo sl (fsGet σ0 [e.1, q.slug])).2) := hres
      _ = read_existing_tags_and_memo sl (fsGet σ0 [e.1, q.slug]) := rfl
  have hqs : planQs sl σ1 (filePlan ds) = planQs sl σ0 (filePlan ds) :=
    planQs_congr sl σ1 σ0 (filePlan ds) hkey
  obtain ⟨σB, hrun2, hotherB, heachB⟩ := runMain_char sl ds σ1 hok hnd
  refine ⟨fsSet σB [tx "index.md"]
    (write_home_content (planQs sl σ1 (filePlan ds))), hrun1, hrun2, ?_⟩
  intro p
  by_cases hph : p = [tx "index.md"]
  · subst hph
    rw [fsGet_set, hσ1, fsGet_set, hqs]
  · rw [fsGet_set_ne σB [tx "index.md"] p _ hph]
    by_cases hpt : p ∈ planTargets (filePlan ds)
    · obtain ⟨e, he, q, hq, hpe⟩ := planTargets_mem_decomp hpt
      subst hpe
      rw [heachB e he q hq]
      rw [plannedContent_congr sl σ1 σ0 e.1 q (hkey _ hpt)]
      rw [hσ1, fsGet_set_ne σA [tx "index.md"] [e.1, q.slug] _ (by simp)]
      rw [heachA e he q hq]
    · rw [hotherB p hpt]

/-- C6 counterexample: with the single question text being exactly
`## メモ`, the blockquote of the first run's page contains `> ## メモ`,
whose `## メモ` substring is the **first** match of the memo pattern when
the second run re-reads the page; the second run therefore recovers a
different memo and rewrites the page with different bytes, even though no
user edit happened between the runs.  Byte-identical re-runs do not hold
unconditionally. -/
theorem C6_counterexample :
    (runMain miniYaml dsMemoText []).toOption.isSome = true ∧
    (runMain miniYaml dsMemoText memoRun1).toOption.isSome = true ∧
    fsGet memoRun2 memoPagePath ≠ fsGet memoRun1 memoPagePath := by
  refine ⟨by decide, by decide, by decide⟩

/-- C6 witness: on the spec's own example dataset (one file, text
`問題文`) starting from an empty output tree, the three provisos hold and
two successive runs leave extensionally identical filesystems. -/
theorem C6_witness :
    planOk (filePlan dsExample) ∧
    (planTargets (filePlan dsExample)).Nodup ∧
    (∀ e ∈ filePlan dsExample, entryRoundtripOk miniYaml [] e) ∧
    (∃ σ1 σ2, runMain miniYaml dsExample [] = .ok σ1 ∧
      runMain miniYaml dsExample σ1 = .ok σ2 ∧ ∀ p, fsGet σ2 p = fsGet σ1 p) :=
  ⟨by decide, by decide, by decide,
   C6_idempotent miniYaml dsExample [] (by decide) (by decide) (by decide)⟩
